import Mathlib

/-!
# rdruss/hal: resource-type lookup and the link-creation workflow

A shallow embedding of

* `pkg/cmdutil/entity.go` (`ResourceType`, `KnownResourceTypes`, `ResourceTypeFor`),
* `pkg/hal/cli/link/create.go` (`createOptions` with `Complete`, `Validate`, `Build`,
  `checkAndGetValidTargets`, `extractTargetName`, `checkAndGetValidSecrets`),
* `pkg/kreate/cli/link/link.go` (`options` with `Complete`, `Run`,
  `checkAndGetValidTargets`, `checkAndGetValidSecrets`).

Go strings are byte sequences.  Calls to the cluster client and to the terminal
are recorded, in program order, in a trace of `Event`s; the answers of the
cluster and of the user are parameters.
-/

set_option autoImplicit false

namespace Hal

/-! ## Go values -/

/-- A Go string: its sequence of bytes (each a natural number, below 256 in a real string). -/
abbrev GoString := List Nat

/-- The bytes of an ASCII source literal. -/
def lit (s : String) : GoString := s.toList.map Char.toNat

/-- A Go `error` value, carried by its message. -/
structure GoError where
  msg : GoString
deriving DecidableEq, Repr

/-- The slice expression `s[low:]`; `none` is the run-time panic "slice bounds out of range". -/
def sliceFrom (s : GoString) (low : Int) : Option GoString :=
  if 0 ≤ low ∧ low ≤ (s.length : Int) then some (s.drop low.toNat) else none

/-! ## Package `strings` of the Go standard library -/

namespace strings

/-- Scan of `strings.Index`: the first offset, counted from `i`, at which `substr` starts. -/
def indexFrom (substr : GoString) : Nat → GoString → Int
  | i, [] => if substr.isPrefixOf [] then (i : Int) else -1
  | i, c :: cs => if substr.isPrefixOf (c :: cs) then (i : Int) else indexFrom substr (i + 1) cs

/-- Go `strings.Index(s, substr)`: byte offset of the first instance of `substr` in `s`, or `-1`. -/
def Index (s substr : GoString) : Int := indexFrom substr 0 s

/-- Go `strings.Split(s, sep)` for a separator of one byte `sep`
(the callers split on `"="`): the pieces of `s` between the separator bytes. -/
def Split (s : GoString) (sep : Nat) : List GoString :=
  match s with
  | [] => [[]]
  | c :: cs =>
    if c = sep then [] :: Split cs sep
    else
      match Split cs sep with
      | [] => [[c]]
      | p :: ps => (c :: p) :: ps

/-- First loop of `strings.ToLower`: no byte is `>= utf8.RuneSelf`. -/
def isASCII (s : GoString) : Bool := s.all (fun c => decide (c < 128))

/-- First loop of `strings.ToLower`: some byte is in `'A'..'Z'`. -/
def hasUpper (s : GoString) : Bool := s.any (fun c => decide (65 ≤ c) && decide (c ≤ 90))

/-- Go `strings.ToLower(s)`.  The ASCII branch is the library's byte loop
(`c += 'a' - 'A'` on `'A'..'Z'`); for a string with a byte `>= 0x80` the library
returns `Map(unicode.ToLower, s)`, which depends on the Unicode case tables and
is the parameter `unicodeLower`. -/
def ToLower (unicodeLower : GoString → GoString) (s : GoString) : GoString :=
  if isASCII s then
    if !hasUpper s then s
    else s.map (fun c => if 65 ≤ c ∧ c ≤ 90 then c + 32 else c)
  else unicodeLower s

end strings

/-- The call `fmt.Errorf(format)` with a format that has no verb. -/
def Errorf (format : String) : GoError := ⟨lit format⟩

/-! ## `pkg/cmdutil/entity.go` -/

namespace cmdutil

/-- Go `type ResourceType string`. -/
abbrev ResourceType := GoString

def Component : ResourceType := lit "component"
def Capability : ResourceType := lit "capability"
def Link : ResourceType := lit "link"

def ResourceType.String (r : ResourceType) : GoString := r

def KnownResourceTypes : List ResourceType := [Capability, Component, Link]

/-- A non-nil `runtime.Object`, as far as `ResourceTypeFor` reads it:
`object.GetObjectKind().GroupVersionKind().Kind`. -/
structure RuntimeObject where
  Kind : GoString
deriving DecidableEq, Repr

/-- The `for _, t := range KnownResourceTypes()` loop of `ResourceTypeFor`:
the first `t` with `kind == t.String()`, if the loop returns from its body. -/
def ResourceTypeFor.loop (kind : GoString) : List ResourceType → Option ResourceType
  | [] => none
  | t :: ts => if kind = ResourceType.String t then some t else ResourceTypeFor.loop kind ts

/-- Go `ResourceTypeFor(object)`; `none` is the nil object.  The result is the
pair `(ResourceType, error)`, with `none` for the nil error. -/
def ResourceTypeFor (unicodeLower : GoString → GoString) (object : Option RuntimeObject) :
    ResourceType × Option GoError :=
  match object with
  | none => (lit "", some (Errorf "must provide a non-nil runtime.Object"))
  | some obj =>
    let kind := strings.ToLower unicodeLower obj.Kind
    match ResourceTypeFor.loop kind KnownResourceTypes with
    | some t => (t, none)
    | none => (lit "", some ⟨lit "unknown resource type: " ++ kind⟩)

end cmdutil

/-! ## Collaborators of the link workflow: cluster client and terminal -/

/-- One call that leaves the process, in program order: a list query to the
cluster (`k8s.GetClient()...List`) or a call to package `ui`. -/
inductive Event
  | listCapabilities
  | listComponents
  | listSecrets
  | outputSelection (label value : GoString)
  | select (msg : GoString) (candidates : List GoString)
  | proceed (msg : GoString)
deriving DecidableEq, Repr

/-- The value of `k8s.GetClient()` during one run: the namespace and, for each
list query, either the error or the `Name` of every item of the result, in order.
`secrets` is the answer to the query with the field selector `type=Opaque`. -/
structure Client where
  Namespace : GoString
  capabilities : Except GoError (List GoString)
  components : Except GoError (List GoString)
  secrets : Except GoError (List GoString)

/-- Modelled from the spec: package `ui` (the prompt and selection collaborator)
is not among the sources.  `select(prompt, candidates)` returns the chosen
string, `confirm(prompt)` a boolean, and `announceSelection(label, value)` is a
notification only.  The answers may depend on everything that happened before
(the trace).  `selectFromOtherErrorMessage` only builds the text of a prompt. -/
structure UI where
  Select : List Event → GoString → List GoString → GoString
  Proceed : List Event → GoString → Bool
  SelectFromOtherErrorMessage : GoString → GoString → GoString

/-! ## The env-pair loop (`pkg/kreate/cli/link/link.go`, lines 65-71) -/

/-- A name and a value: Go `v1alpha2.Env` in `kreate`, and the element type of
`EnvOptions.Envs` and `LinkSpec.Envs` in `hal`. -/
structure NameValuePair where
  Name : GoString
  Value : GoString
deriving DecidableEq, Repr

/-- The body of one pass of the env-pair loop: `strings.Split(pair, "=")`, the
test `len(split) != 2`, and the pair `{Name: split[0], Value: split[1]}`. -/
def parseEnvPair (pair : GoString) : Except GoError NameValuePair :=
  match strings.Split pair 61 with
  | [n, v] => .ok ⟨n, v⟩
  | _ => .error ⟨lit "invalid environment variable: " ++ pair ++
      lit ", format must be \x27name=value\x27"⟩

/-- The loop `for _, pair := range o.envPairs`, appending to `o.envs`; it returns
at the first rejected pair, with the pairs appended so far. -/
def parseEnvPairs : List GoString → List NameValuePair → Option GoError × List NameValuePair
  | [], envs => (none, envs)
  | pair :: rest, envs =>
    match parseEnvPair pair with
    | .error e => (some e, envs)
    | .ok nv => parseEnvPairs rest (envs ++ [nv])

/-- How a call ended: it returned its `error` result (`none` is nil), or it panicked. -/
inductive Outcome
  | returned (err : Option GoError)
  | panicked
deriving DecidableEq, Repr

/-! ## `pkg/hal/cli/link/create.go` -/

namespace link

def targetSeparator : GoString := lit ": "

/-- Go `link.LinkType` of the API package, a string type. -/
abbrev LinkType := GoString

def SecretLinkType : LinkType := lit "Secret"
def EnvLinkType : LinkType := lit "Env"

def LinkType.String (l : LinkType) : GoString := l

structure ObjectMeta where
  Name : GoString
  Namespace : GoString
deriving DecidableEq, Repr

structure LinkSpec where
  ComponentName : GoString
  Type_ : LinkType
  Ref : GoString
  Envs : List NameValuePair
deriving DecidableEq, Repr

/-- The entity `link.Link`, with the fields that `Build` sets (`Type_` is the Go field `Type`). -/
structure Link where
  ObjectMeta : ObjectMeta
  Spec : LinkSpec
deriving DecidableEq, Repr

/-- The entity client behind `cmdutil.HalkyonEntity`: `GetNamespace()` returns the
field `ns` (as in `pkg/hal/cli/component/entity.go`). -/
structure HalkyonEntity where
  ns : GoString
deriving DecidableEq, Repr

def HalkyonEntity.GetNamespace (lc : HalkyonEntity) : GoString := lc.ns

/-- The fields of `cmdutil.CreateOptions` that the link workflow reads. -/
structure CreateOptions where
  Name : GoString
  Client : HalkyonEntity
deriving DecidableEq, Repr

/-- The fields of `cmdutil.EnvOptions`. -/
structure EnvOptions where
  EnvPairs : List GoString
  Envs : List NameValuePair
deriving DecidableEq, Repr

/-- Go `type createOptions struct`; `target` is `none` for the nil pointer. -/
structure createOptions where
  targetName : GoString
  secret : GoString
  linkType : LinkType
  CreateOptions : CreateOptions
  EnvOptions : EnvOptions
  target : Option Link
deriving DecidableEq, Repr

/-- Modelled from the spec: `cmdutil.EnvOptions.Complete` is not among the sources.
The spec has it parse the `name=value` pairs, each pair failing the shape
(exactly one `=`) being an error citing the pair; this is the loop that
`pkg/kreate/cli/link/link.go` has inline in `options.Complete`. -/
def EnvOptions.Complete (o : EnvOptions) : Option GoError × EnvOptions :=
  let r := parseEnvPairs o.EnvPairs o.Envs
  (r.1, { o with Envs := r.2 })

/-- One `for _, c := range items` loop of `checkAndGetValidTargets`:
`known = append(known, prefix + targetSeparator + c.Name)` and the update of
`givenIsValid`. -/
def targetsLoop (kindPrefix targetName : GoString) :
    List GoString → List GoString × Bool → List GoString × Bool
  | [], acc => acc
  | c :: cs, (known, givenIsValid) =>
    targetsLoop kindPrefix targetName cs
      (known ++ [kindPrefix ++ targetSeparator ++ c],
       if !givenIsValid && decide (c = targetName) then true else givenIsValid)

/-- Go `createOptions.checkAndGetValidTargets()`: the result triple and the
list queries issued. -/
def createOptions.checkAndGetValidTargets (client : Client) (o : createOptions) :
    (List GoString × Bool × Option GoError) × List Event :=
  let capabilityPrefix := lit "capability"
  let componentPrefix := lit "component"
  match client.capabilities with
  | .error err => (([], false, some err), [Event.listCapabilities])
  | .ok capabilities =>
    let acc := targetsLoop capabilityPrefix o.targetName capabilities ([], false)
    match client.components with
    | .error err => (([], false, some err), [Event.listCapabilities, Event.listComponents])
    | .ok components =>
      let acc := targetsLoop componentPrefix o.targetName components acc
      ((acc.1, acc.2, none), [Event.listCapabilities, Event.listComponents])

/-- Go `createOptions.extractTargetName(typeAndTarget)`; `none` is the panic of
the slice expression. -/
def createOptions.extractTargetName (typeAndTarget : GoString) : Option GoString :=
  let index := strings.Index typeAndTarget targetSeparator
  sliceFrom typeAndTarget (index + (targetSeparator.length : Int))

/-- The loop of `checkAndGetValidSecrets`. -/
def secretsLoop (secret : GoString) :
    List GoString → List GoString × Bool → List GoString × Bool
  | [], acc => acc
  | s :: ss, (known, givenIsValid) =>
    secretsLoop secret ss (known ++ [s], if s = secret then true else givenIsValid)

/-- Go `createOptions.checkAndGetValidSecrets()`. -/
def createOptions.checkAndGetValidSecrets (client : Client) (o : createOptions) :
    (List GoString × Bool × Option GoError) × List Event :=
  match client.secrets with
  | .error err => (([], false, some err), [Event.listSecrets])
  | .ok secrets =>
    let acc := secretsLoop o.secret secrets ([], false)
    ((acc.1, acc.2, none), [Event.listSecrets])

/-- What a run of `Complete` leaves behind: how it ended, the receiver, and the
calls it made. -/
structure Run where
  outcome : Outcome
  state : createOptions
  trace : List Event
deriving DecidableEq, Repr

/-- Lines 59-84 of `Complete`: the `if useSecret { ... } else { ... }` statement
and `return nil`. -/
def createOptions.completeMechanism (ui : UI) (client : Client) (useSecret : Bool)
    (o : createOptions) (tr : List Event) : Run :=
  if useSecret then
    let o := { o with linkType := SecretLinkType }
    let tr := tr ++ [Event.outputSelection (lit "Selected link type") (LinkType.String o.linkType)]
    match o.checkAndGetValidSecrets client with
    | ((_, _, some err), evs) => ⟨.returned (some err), o, tr ++ evs⟩
    | ((secrets, valid, none), evs) =>
      let tr := tr ++ evs
      if secrets.length = 0 then
        ⟨.returned (some (Errorf "no valid secrets currently exist on the cluster")), o, tr⟩
      else if !valid then
        let msg :=
          if o.secret.length > 0 then ui.SelectFromOtherErrorMessage (lit "Unknown secret") o.secret
          else lit "Secret (only potential matches shown)"
        ⟨.returned none, { o with secret := ui.Select tr msg secrets },
          tr ++ [Event.select msg secrets]⟩
      else ⟨.returned none, o, tr⟩
  else
    let o := { o with linkType := EnvLinkType }
    let tr := tr ++ [Event.outputSelection (lit "Selected link type") (LinkType.String o.linkType)]
    let r := EnvOptions.Complete o.EnvOptions
    match r.1 with
    | some err => ⟨.returned (some err), { o with EnvOptions := r.2 }, tr⟩
    | none => ⟨.returned none, { o with EnvOptions := r.2 }, tr⟩

/-- Lines 55-57 of `Complete`, followed by the rest of the function. -/
def createOptions.completeDecision (ui : UI) (client : Client) (useSecret useEnv : Bool)
    (o : createOptions) (tr : List Event) : Run :=
  if !useSecret && !useEnv then
    createOptions.completeMechanism ui client (ui.Proceed tr (lit "Use Secret")) o
      (tr ++ [Event.proceed (lit "Use Secret")])
  else createOptions.completeMechanism ui client useSecret o tr

/-- Go `createOptions.Complete(name, cmd, args)`.  The arguments are only passed
on to `EnvOptions.Complete`, whose model does not read them. -/
def createOptions.Complete (ui : UI) (client : Client) (o : createOptions) : Run :=
  let useSecret := decide (o.secret.length > 0)
  let useEnv := decide (o.EnvOptions.EnvPairs.length > 0)
  if useSecret && useEnv then
    ⟨.returned (some (Errorf
      "invalid parameter combination: either pass a secret name or environment variables, not both")),
      o, []⟩
  else
    match o.checkAndGetValidTargets client with
    | ((_, _, some err), evs) => ⟨.returned (some err), o, evs⟩
    | ((capabilitiesAndComponents, validTarget, none), evs) =>
      if capabilitiesAndComponents.length = 0 then
        ⟨.returned (some (Errorf
          "no valid capabilities or components currently exist on the cluster")), o, evs⟩
      else
        let tr := evs ++ [Event.outputSelection (lit "Selected target") o.targetName]
        if !validTarget then
          let tr2 := tr ++ [Event.select (lit "Target") capabilitiesAndComponents]
          match createOptions.extractTargetName
              (ui.Select tr (lit "Target") capabilitiesAndComponents) with
          | none => ⟨.panicked, o, tr2⟩
          | some n =>
            createOptions.completeDecision ui client useSecret useEnv { o with targetName := n } tr2
        else createOptions.completeDecision ui client useSecret useEnv o tr

/-- Go `createOptions.Validate()`: `return nil`. -/
def createOptions.Validate (_o : createOptions) : Option GoError := none

/-- Go `createOptions.Build()`: the returned entity and the receiver afterwards. -/
def createOptions.Build (o : createOptions) : Link × createOptions :=
  match o.target with
  | none =>
    let l : Link :=
      { ObjectMeta :=
          { Name := o.CreateOptions.Name
            Namespace := o.CreateOptions.Client.GetNamespace }
        Spec :=
          { ComponentName := o.targetName
            Type_ := o.linkType
            Ref := o.secret
            Envs := o.EnvOptions.Envs } }
    (l, { o with target := some l })
  | some l => (l, o)

end link

/-! ## `pkg/kreate/cli/link/link.go` -/

namespace kreate

/-- Go `v1alpha2.LinkKind` of the API package: the two constants used. -/
inductive LinkKind
  | EnvLinkKind
  | SecretLinkKind
deriving DecidableEq, Repr

/-- The collaborator `validation.EnumValue` behind the field `kind`, which is not
among the sources: what its methods answer during one run. -/
structure EnumValue where
  IsProvidedValid : Bool
  Set : LinkKind → Option GoError
  Get : LinkKind

/-- Go `type options struct`; `ComponentName` is the field of the embedded
`cmdutil.ComponentTargetingOptions` that `Run` reads. -/
structure options where
  targetName : GoString
  ref : GoString
  envPairs : List GoString
  envs : List NameValuePair
  ComponentName : GoString
deriving DecidableEq, Repr

/-- One `for _, c := range items` loop of `checkAndGetValidTargets`, with
`fmt.Sprintf("%s: %s", prefix, c.Name)`. -/
def targetsLoop (kindPrefix targetName : GoString) :
    List GoString → List GoString × Bool → List GoString × Bool
  | [], acc => acc
  | c :: cs, (known, givenIsValid) =>
    targetsLoop kindPrefix targetName cs
      (known ++ [kindPrefix ++ lit ": " ++ c],
       if !givenIsValid && decide (c = targetName) then true else givenIsValid)

/-- Go `options.checkAndGetValidTargets()`. -/
def options.checkAndGetValidTargets (client : Client) (o : options) :
    (List GoString × Bool × Option GoError) × List Event :=
  let capabilityPrefix := lit "capability"
  let componentPrefix := lit "component"
  match client.capabilities with
  | .error err => (([], false, some err), [Event.listCapabilities])
  | .ok capabilities =>
    let acc := targetsLoop capabilityPrefix o.targetName capabilities ([], false)
    match client.components with
    | .error err => (([], false, some err), [Event.listCapabilities, Event.listComponents])
    | .ok components =>
      let acc := targetsLoop componentPrefix o.targetName components acc
      ((acc.1, acc.2, none), [Event.listCapabilities, Event.listComponents])

/-- The loop of `checkAndGetValidSecrets`. -/
def secretsLoop (ref : GoString) :
    List GoString → List GoString × Bool → List GoString × Bool
  | [], acc => acc
  | s :: ss, (known, givenIsValid) =>
    secretsLoop ref ss (known ++ [s], if s = ref then true else givenIsValid)

/-- Go `options.checkAndGetValidSecrets()`; here `Client.secrets` answers the
query without a field selector. -/
def options.checkAndGetValidSecrets (client : Client) (o : options) :
    (List GoString × Bool × Option GoError) × List Event :=
  match client.secrets with
  | .error err => (([], false, some err), [Event.listSecrets])
  | .ok secrets =>
    let acc := secretsLoop o.ref secrets ([], false)
    ((acc.1, acc.2, none), [Event.listSecrets])

/-- What a run of `Complete` leaves behind. -/
structure Run where
  outcome : Outcome
  state : options
  trace : List Event
deriving DecidableEq, Repr

/-- Lines 65-72 of `Complete`: the env-pair loop and `return nil`. -/
def options.completeEnvs (o : options) (tr : List Event) : Run :=
  let r := parseEnvPairs o.envPairs o.envs
  ⟨.returned r.1, { o with envs := r.2 }, tr⟩

/-- Lines 42-63 of `Complete`, followed by the rest of the function. -/
def options.completeKind (ui : UI) (client : Client) (kind : EnumValue)
    (o : options) (tr : List Event) : Run :=
  if !kind.IsProvidedValid then
    match kind.Set LinkKind.EnvLinkKind with
    | some err => ⟨.returned (some err), o, tr⟩
    | none =>
      let tr2 := tr ++ [Event.proceed (lit "Use Secret")]
      if ui.Proceed tr (lit "Use Secret") then
        match kind.Set LinkKind.SecretLinkKind with
        | some err => ⟨.returned (some err), o, tr2⟩
        | none =>
          match o.checkAndGetValidSecrets client with
          | ((_, _, some err), evs) => ⟨.returned (some err), o, tr2 ++ evs⟩
          | ((secrets, valid, none), evs) =>
            let tr3 := tr2 ++ evs
            if secrets.length = 0 then
              ⟨.returned (some (Errorf "no valid secrets currently exist on the cluster")), o, tr3⟩
            else if !valid then
              options.completeEnvs { o with ref := ui.Select tr3 (lit "Secret") secrets }
                (tr3 ++ [Event.select (lit "Secret") secrets])
            else options.completeEnvs o tr3
      else options.completeEnvs o tr2
  else options.completeEnvs o tr

/-- Go `options.Complete(name, cmd, args)`; the arguments are not read. -/
def options.Complete (ui : UI) (client : Client) (kind : EnumValue) (o : options) : Run :=
  match o.checkAndGetValidTargets client with
  | ((_, _, some err), evs) => ⟨.returned (some err), o, evs⟩
  | ((capabilitiesAndComponents, validTarget, none), evs) =>
    if capabilitiesAndComponents.length = 0 then
      ⟨.returned (some (Errorf
        "no valid capabilities or components currently exist on the cluster")), o, evs⟩
    else if !validTarget then
      options.completeKind ui client kind
        { o with targetName := ui.Select evs (lit "Target") capabilitiesAndComponents }
        (evs ++ [Event.select (lit "Target") capabilitiesAndComponents])
    else options.completeKind ui client kind o evs

/-- Go `v1alpha2.LinkSpec`, with the fields that `Run` sets. -/
structure LinkSpec where
  Name : GoString
  ComponentName : GoString
  Kind : LinkKind
  Ref : GoString
  Envs : List NameValuePair
deriving DecidableEq, Repr

/-- Go `v1alpha2.Link`, with the fields that `Run` sets. -/
structure Link where
  Name : GoString
  Namespace : GoString
  Spec : LinkSpec
deriving DecidableEq, Repr

/-- The entity that `options.Run()` hands to `Links(client.Namespace).Create`. -/
def options.Run (client : Client) (kind : EnumValue) (o : options) : Link :=
  { Name := o.ComponentName ++ lit "-link"
    Namespace := client.Namespace
    Spec :=
      { Name := o.ComponentName ++ lit "-link"
        ComponentName := o.targetName
        Kind := kind.Get
        Ref := lit ""
        Envs := [] } }

end kreate

/-- Two bytes that are the same letter in some letter case: equal, or the first
is the upper-case ASCII letter of the second. -/
def sameLetter (c n : Nat) : Prop := c = n ∨ (65 ≤ c ∧ c ≤ 90 ∧ c + 32 = n)

/-- The string `kind` equals `name` in any letter case (byte by byte, ASCII letters). -/
def eqAnyCase (kind name : GoString) : Prop := List.Forall₂ sameLetter kind name

/-- The string `kind` equals `name` up to letter case: as ASCII letters, or, for a
string with a byte outside ASCII, through the Unicode lower-case mapping. -/
def eqUpToCase (unicodeLower : GoString → GoString) (kind name : GoString) : Prop :=
  eqAnyCase kind name ∨ (strings.isASCII kind = false ∧ unicodeLower kind = name)

/-! ## Example clusters, users and inputs -/

/-- The cluster of the spec example: capability `db`, components `backend` and `frontend`. -/
def exampleClient : Client :=
  { Namespace := lit "demo"
    capabilities := .ok [lit "db"]
    components := .ok [lit "backend", lit "frontend"]
    secrets := .ok [] }

/-- A user who picks the first candidate and declines every yes/no prompt. -/
def exampleUI : UI :=
  { Select := fun _ _ cs => cs.headD []
    Proceed := fun _ _ => false
    SelectFromOtherErrorMessage := fun a b => a ++ lit ": " ++ b }

/-- A cluster without capabilities and components. -/
def emptyClient : Client :=
  { Namespace := lit "demo", capabilities := .ok [], components := .ok [], secrets := .ok [] }

/-- The cluster of the end-to-end example: component `api`, opaque secret `db-secret`. -/
def apiClient : Client :=
  { Namespace := lit "demo"
    capabilities := .ok []
    components := .ok [lit "api"]
    secrets := .ok [lit "db-secret"] }

/-- The receiver after `--target api --secret db-secret`. -/
def apiOptions : link.createOptions :=
  { targetName := lit "api", secret := lit "db-secret", linkType := [],
    CreateOptions := ⟨lit "web-link", ⟨lit "demo"⟩⟩, EnvOptions := ⟨[], []⟩, target := none }

/-- The receiver after `--target backend`, with neither a secret nor env pairs. -/
def bareOptions : link.createOptions :=
  { targetName := lit "backend", secret := [], linkType := [],
    CreateOptions := ⟨lit "web-link", ⟨lit "demo"⟩⟩, EnvOptions := ⟨[], []⟩, target := none }

/-- A `kind` flag that was given and is valid, so that `options.Complete` skips the
block on the kind. -/
def exampleKind : kreate.EnumValue :=
  { IsProvidedValid := true, Set := fun _ => none, Get := kreate.LinkKind.EnvLinkKind }

/-- The receiver of `kreate` after `--target backend --env A=1 --env FOO`. -/
def envKreateOptions : kreate.options :=
  { targetName := lit "backend", ref := [], envPairs := [lit "A=1", lit "FOO"], envs := [],
    ComponentName := lit "web" }

/-- The receiver of `hal` after `--target backend --env A=1 --env FOO`. -/
def envOptions : link.createOptions :=
  { targetName := lit "backend", secret := [], linkType := [],
    CreateOptions := ⟨lit "web-link", ⟨lit "demo"⟩⟩,
    EnvOptions := ⟨[lit "A=1", lit "FOO"], []⟩, target := none }

/-- Exactly one of the two payloads of a Link is non-empty: the secret reference or the env pairs. -/
def exactlyOnePayload (l : link.Link) : Prop :=
  (l.Spec.Ref ≠ [] ∧ l.Spec.Envs = []) ∨ (l.Spec.Ref = [] ∧ l.Spec.Envs ≠ [])

instance (l : link.Link) : Decidable (exactlyOnePayload l) := by
  unfold exactlyOnePayload
  infer_instance

/-! ## Strings: `Index`, the slice, `Split` -/

theorem lit_targetSeparator : link.targetSeparator = [58, 32] := by decide

theorem isPrefixOf_sep_cons (c : Nat) (cs : GoString) :
    List.isPrefixOf [58, 32] (c :: cs) = (decide (c = 58) && List.isPrefixOf [32] cs) := by
  by_cases h : c = 58
  · subst h; simp [List.isPrefixOf]
  · have h2 : ¬ (58 = c) := fun e => h e.symm
    simp [List.isPrefixOf, h, h2]

/-- No earlier start: `Index` finds the separator right after a prefix without `':'`. -/
theorem indexFrom_after_kind (pre rest : GoString) (i : Nat) (h : 58 ∉ pre) :
    strings.indexFrom [58, 32] i (pre ++ 58 :: 32 :: rest) = ((i + pre.length : Nat) : Int) := by
  induction pre generalizing i with
  | nil => simp [strings.indexFrom, List.isPrefixOf]
  | cons c cs ih =>
    have hc : c ≠ 58 := fun e => h (by simp [e])
    have hcs : 58 ∉ cs := fun e => h (by simp [e])
    have e := ih (i + 1) hcs
    show strings.indexFrom [58, 32] i (c :: (cs ++ 58 :: 32 :: rest)) = _
    rw [strings.indexFrom, isPrefixOf_sep_cons, e]
    simp only [hc, decide_False, Bool.false_and, Bool.false_eq_true, if_false, List.length_cons]
    congr 1
    omega

/-- Without an occurrence of a non-empty `substr`, the scan answers `-1`. -/
theorem indexFrom_absent (substr s : GoString) (i : Nat) (hne : substr ≠ [])
    (h : ¬ substr <:+: s) : strings.indexFrom substr i s = -1 := by
  induction s generalizing i with
  | nil =>
    cases substr with
    | nil => exact absurd rfl hne
    | cons a as => simp [strings.indexFrom, List.isPrefixOf]
  | cons c cs ih =>
    have h1 : ¬ substr <+: c :: cs := fun hp => h hp.isInfix
    have h2 : ¬ substr <:+: cs := fun hi => h (hi.trans (List.suffix_cons c cs).isInfix)
    have h3 : List.isPrefixOf substr (c :: cs) = false := by
      rw [Bool.eq_false_iff]
      intro hp
      exact h1 (List.isPrefixOf_iff_prefix.mp hp)
    simp [strings.indexFrom, h3, ih (i + 1) h2]

/-- The scan answers `-1`, or an offset at which `substr` fits into the string. -/
theorem indexFrom_range (substr s : GoString) (i : Nat) :
    strings.indexFrom substr i s = -1 ∨
      ∃ k : Nat, strings.indexFrom substr i s = ((i + k : Nat) : Int) ∧
        k + substr.length ≤ s.length := by
  induction s generalizing i with
  | nil =>
    cases substr with
    | nil => right; exact ⟨0, by simp [strings.indexFrom], by simp⟩
    | cons a as => left; simp [strings.indexFrom, List.isPrefixOf]
  | cons c cs ih =>
    by_cases hp : List.isPrefixOf substr (c :: cs) = true
    · right
      refine ⟨0, by simp [strings.indexFrom, hp], ?_⟩
      have := (List.isPrefixOf_iff_prefix.mp hp).length_le
      simpa using this
    · rcases ih (i + 1) with h | ⟨k, hk, hle⟩
      · left; simp [strings.indexFrom, hp, h]
      · right
        refine ⟨k + 1, ?_, by simp; omega⟩
        simp only [strings.indexFrom, hp, Bool.false_eq_true, if_false, hk]
        congr 1
        omega

/-- The scan stops at the first separator: no separator starts before `pre` ends. -/
theorem indexFrom_first (pre suf : GoString) (i : Nat) (h : ¬ [58, 32] <:+: pre ++ [58]) :
    strings.indexFrom [58, 32] i (pre ++ 58 :: 32 :: suf) = ((i + pre.length : Nat) : Int) := by
  induction pre generalizing i with
  | nil => simp [strings.indexFrom, List.isPrefixOf]
  | cons c cs ih =>
    have hcs : ¬ [58, 32] <:+: cs ++ [58] :=
      fun hi => h (hi.trans (List.suffix_cons c (cs ++ [58])).isInfix)
    have hp : List.isPrefixOf [58, 32] (c :: (cs ++ 58 :: 32 :: suf)) = false := by
      rw [Bool.eq_false_iff]
      intro hp
      rw [isPrefixOf_sep_cons] at hp
      cases cs with
      | nil => simp [List.isPrefixOf] at hp
      | cons d ds =>
        simp [List.isPrefixOf] at hp
        apply h
        refine List.IsPrefix.isInfix ⟨ds ++ [58], ?_⟩
        simp [hp.1, hp.2]
    have e := ih (i + 1) hcs
    show strings.indexFrom [58, 32] i (c :: (cs ++ 58 :: 32 :: suf)) = _
    rw [strings.indexFrom, hp, e]
    simp only [Bool.false_eq_true, if_false, List.length_cons]
    congr 1
    omega

theorem sliceFrom_nat (s : GoString) (n : Nat) (h : n ≤ s.length) :
    sliceFrom s (n : Int) = some (s.drop n) := by
  simp [sliceFrom, h]

/-- Rendering then extracting, for a prefix without `':'`. -/
theorem extractTargetName_render (kindPrefix name : GoString) (h : 58 ∉ kindPrefix) :
    link.createOptions.extractTargetName (kindPrefix ++ link.targetSeparator ++ name) =
      some name := by
  have e := indexFrom_after_kind kindPrefix name 0 h
  simp only [link.createOptions.extractTargetName, strings.Index, lit_targetSeparator,
    List.append_assoc, List.cons_append, List.nil_append, e, List.length_cons, List.length_nil]
  have h2 : kindPrefix.length + 2 ≤ (kindPrefix ++ 58 :: 32 :: name).length := by simp
  have := sliceFrom_nat (kindPrefix ++ 58 :: 32 :: name) (kindPrefix.length + 2) h2
  simp only [Nat.zero_add] at *
  rw [show ((kindPrefix.length : Nat) : Int) + ((0 + 1 + 1 : Nat) : Int)
      = ((kindPrefix.length + 2 : Nat) : Int) by push_cast; ring, this]
  congr 1
  rw [show kindPrefix ++ 58 :: 32 :: name = (kindPrefix ++ [58, 32]) ++ name by simp]
  rw [List.drop_append_of_le_length (by simp)]
  simp

/-! ## Target resolution -/

theorem targetsLoop_eq (kindPrefix targetName : GoString) (items known : List GoString)
    (valid : Bool) :
    link.targetsLoop kindPrefix targetName items (known, valid) =
      (known ++ items.map (fun c => kindPrefix ++ link.targetSeparator ++ c),
       valid || decide (targetName ∈ items)) := by
  induction items generalizing known valid with
  | nil => simp [link.targetsLoop]
  | cons c cs ih =>
    rw [link.targetsLoop, ih]
    by_cases hc : c = targetName
    · cases valid <;> simp [hc]
    · have hc2 : ¬ targetName = c := fun e => hc e.symm
      cases valid <;> simp [hc, hc2]

theorem kreate_targetsLoop_eq (kindPrefix targetName : GoString) (items known : List GoString)
    (valid : Bool) :
    kreate.targetsLoop kindPrefix targetName items (known, valid) =
      (known ++ items.map (fun c => kindPrefix ++ lit ": " ++ c),
       valid || decide (targetName ∈ items)) := by
  induction items generalizing known valid with
  | nil => simp [kreate.targetsLoop]
  | cons c cs ih =>
    rw [kreate.targetsLoop, ih]
    by_cases hc : c = targetName
    · cases valid <;> simp [hc]
    · have hc2 : ¬ targetName = c := fun e => hc e.symm
      cases valid <;> simp [hc, hc2]

/-- The result of `checkAndGetValidTargets` when both list queries succeed. -/
theorem checkAndGetValidTargets_ok (client : Client) (o : link.createOptions)
    (caps comps : List GoString)
    (hcaps : client.capabilities = .ok caps) (hcomps : client.components = .ok comps) :
    o.checkAndGetValidTargets client =
      ((caps.map (fun c => lit "capability" ++ link.targetSeparator ++ c) ++
          comps.map (fun c => lit "component" ++ link.targetSeparator ++ c),
        decide (o.targetName ∈ caps) || decide (o.targetName ∈ comps), none),
       [Event.listCapabilities, Event.listComponents]) := by
  simp [link.createOptions.checkAndGetValidTargets, hcaps, hcomps, targetsLoop_eq]

theorem kreate_checkAndGetValidTargets_ok (client : Client) (o : kreate.options)
    (caps comps : List GoString)
    (hcaps : client.capabilities = .ok caps) (hcomps : client.components = .ok comps) :
    o.checkAndGetValidTargets client =
      ((caps.map (fun c => lit "capability" ++ lit ": " ++ c) ++
          comps.map (fun c => lit "component" ++ lit ": " ++ c),
        decide (o.targetName ∈ caps) || decide (o.targetName ∈ comps), none),
       [Event.listCapabilities, Event.listComponents]) := by
  simp [kreate.options.checkAndGetValidTargets, hcaps, hcomps, kreate_targetsLoop_eq]

/-- C1. Target resolution, when both list queries succeed: the candidates of
`createOptions.checkAndGetValidTargets` are exactly `"capability: " + c` for the
capability names in order, followed by `"component: " + c` for the component
names in order; no error is returned; and `isValid` is true if and only if the
configured target name equals some bare name of either list.  The same holds
for `options.checkAndGetValidTargets` of `kreate`. -/
theorem C1_checkAndGetValidTargets (client : Client) (caps comps : List GoString)
    (t : GoString)
    (hcaps : client.capabilities = .ok caps) (hcomps : client.components = .ok comps) :
    (∀ o : link.createOptions, o.targetName = t →
      (o.checkAndGetValidTargets client).1.1 =
          caps.map (fun c => lit "capability: " ++ c) ++
            comps.map (fun c => lit "component: " ++ c) ∧
        ((o.checkAndGetValidTargets client).1.2.1 = true ↔ (t ∈ caps ∨ t ∈ comps)) ∧
        (o.checkAndGetValidTargets client).1.2.2 = none) ∧
    (∀ o : kreate.options, o.targetName = t →
      (o.checkAndGetValidTargets client).1.1 =
          caps.map (fun c => lit "capability: " ++ c) ++
            comps.map (fun c => lit "component: " ++ c) ∧
        ((o.checkAndGetValidTargets client).1.2.1 = true ↔ (t ∈ caps ∨ t ∈ comps)) ∧
        (o.checkAndGetValidTargets client).1.2.2 = none) := by
  have e1 : ∀ c : GoString, lit "capability" ++ link.targetSeparator ++ c
      = lit "capability: " ++ c := fun c => by
    rw [show lit "capability: " = lit "capability" ++ link.targetSeparator by decide]
  have e2 : ∀ c : GoString, lit "component" ++ link.targetSeparator ++ c
      = lit "component: " ++ c := fun c => by
    rw [show lit "component: " = lit "component" ++ link.targetSeparator by decide]
  have e3 : ∀ c : GoString, lit "capability" ++ lit ": " ++ c = lit "capability: " ++ c :=
    fun c => by rw [show lit "capability: " = lit "capability" ++ lit ": " by decide]
  have e4 : ∀ c : GoString, lit "component" ++ lit ": " ++ c = lit "component: " ++ c :=
    fun c => by rw [show lit "component: " = lit "component" ++ lit ": " by decide]
  constructor
  · intro o ht
    rw [checkAndGetValidTargets_ok client o caps comps hcaps hcomps]
    subst ht
    simp only [e1, e2]
    simp
  · intro o ht
    rw [kreate_checkAndGetValidTargets_ok client o caps comps hcaps hcomps]
    subst ht
    simp only [e3, e4]
    simp

/-- C1 at the spec example, for the target name `backend`. -/
theorem C1_checkAndGetValidTargets_witness :
    let o : link.createOptions :=
      { targetName := lit "backend", secret := [], linkType := [],
        CreateOptions := ⟨lit "l", ⟨lit "demo"⟩⟩, EnvOptions := ⟨[], []⟩, target := none }
    (o.checkAndGetValidTargets exampleClient).1.1 =
        [lit "capability: db", lit "component: backend", lit "component: frontend"] ∧
      (o.checkAndGetValidTargets exampleClient).1.2.1 = true :=
  let o : link.createOptions :=
      { targetName := lit "backend", secret := [], linkType := [],
        CreateOptions := ⟨lit "l", ⟨lit "demo"⟩⟩, EnvOptions := ⟨[], []⟩, target := none }
  have h := (C1_checkAndGetValidTargets exampleClient [lit "db"]
    [lit "backend", lit "frontend"] (lit "backend") rfl rfl).1 o rfl
  ⟨h.1, h.2.1.mpr (by decide)⟩

/-! ## `extractTargetName` -/

/-- C2. Round trip of candidate rendering and `extractTargetName`: for each of
the prefixes `capability` and `component` and every name that does not contain
the separator `": "`, extracting from `prefix + ": " + name` returns `name`. -/
theorem C2_extractTargetName_roundtrip (kindPrefix name : GoString)
    (hp : kindPrefix = lit "capability" ∨ kindPrefix = lit "component")
    (_hn : ¬ link.targetSeparator <:+: name) :
    link.createOptions.extractTargetName (kindPrefix ++ link.targetSeparator ++ name) =
      some name := by
  apply extractTargetName_render
  rcases hp with h | h <;> subst h <;> decide

/-- C2 at `"component: backend"`. -/
theorem C2_extractTargetName_roundtrip_witness :
    link.createOptions.extractTargetName (lit "component: backend") = some (lit "backend") :=
  C2_extractTargetName_roundtrip (lit "component") (lit "backend") (Or.inr rfl) (by decide)

theorem extractTargetName_eq (s : GoString) :
    link.createOptions.extractTargetName s =
      sliceFrom s (strings.indexFrom [58, 32] 0 s + 2) := rfl

theorem extractTargetName_absent (s : GoString) (h : ¬ link.targetSeparator <:+: s) :
    link.createOptions.extractTargetName s = sliceFrom s 1 := by
  rw [lit_targetSeparator] at h
  have e := indexFrom_absent [58, 32] s 0 (by decide) h
  rw [extractTargetName_eq, e]
  rfl

theorem extractTargetName_ne_none (s : GoString) (hs : s ≠ []) :
    link.createOptions.extractTargetName s ≠ none := by
  have hlen : 1 ≤ s.length := by
    cases s with
    | nil => exact absurd rfl hs
    | cons c cs => simp
  rw [extractTargetName_eq]
  rcases indexFrom_range [58, 32] s 0 with h | ⟨k, hk, hle⟩
  · rw [h, show (-1 : Int) + 2 = ((1 : Nat) : Int) by norm_num, sliceFrom_nat s 1 hlen]
    simp
  · rw [hk, show ((0 + k : Nat) : Int) + 2 = ((k + 2 : Nat) : Int) by push_cast; ring,
      sliceFrom_nat s (k + 2) (by simpa using hle)]
    simp

/-- C10. `extractTargetName` on a string without the separator `": "`: the result
is never the string unchanged; a non-empty string is returned with its first
byte removed, and on the empty string the slice expression panics.  Over all
strings the function panics exactly on the empty string, and when the string is
`pre + ": " + suf` with no separator starting inside `pre`, it returns `suf`. -/
theorem C10_extractTargetName_without_separator (s : GoString) :
    (¬ link.targetSeparator <:+: s →
      link.createOptions.extractTargetName s ≠ some s ∧
      (s ≠ [] → link.createOptions.extractTargetName s = some (s.drop 1)) ∧
      (s = [] → link.createOptions.extractTargetName s = none)) ∧
    (link.createOptions.extractTargetName s = none ↔ s = []) ∧
    (∀ pre suf : GoString, s = pre ++ link.targetSeparator ++ suf →
      ¬ link.targetSeparator <:+: pre ++ [58] →
      link.createOptions.extractTargetName s = some suf) := by
  have hempty : link.createOptions.extractTargetName [] = none := by decide
  have hdrop : ¬ link.targetSeparator <:+: s → s ≠ [] →
      link.createOptions.extractTargetName s = some (s.drop 1) := by
    intro h hs
    rw [extractTargetName_absent s h]
    cases s with
    | nil => exact absurd rfl hs
    | cons c cs => simp [sliceFrom]
  refine ⟨fun h => ⟨?_, hdrop h, ?_⟩, ⟨?_, ?_⟩, ?_⟩
  · by_cases hs : s = []
    · subst hs; rw [hempty]; simp
    · rw [hdrop h hs]
      intro e
      have := congrArg List.length (Option.some.inj e)
      cases s with
      | nil => exact hs rfl
      | cons c cs => simp at this
  · intro hs; subst hs; exact hempty
  · intro h
    by_contra hs
    exact extractTargetName_ne_none s hs h
  · intro hs; subst hs; exact hempty
  · intro pre suf hs hfirst
    subst hs
    rw [lit_targetSeparator] at hfirst ⊢
    have e := indexFrom_first pre suf 0 hfirst
    have h2 : pre.length + 2 ≤ (pre ++ 58 :: 32 :: suf).length := by simp
    rw [extractTargetName_eq]
    simp only [List.append_assoc, List.cons_append, List.nil_append]
    rw [e, show ((0 + pre.length : Nat) : Int) + 2 = ((pre.length + 2 : Nat) : Int) by
      push_cast; ring, sliceFrom_nat _ _ h2]
    congr 1
    rw [show pre ++ 58 :: 32 :: suf = (pre ++ [58, 32]) ++ suf by simp]
    rw [List.drop_append_of_le_length (by simp)]
    simp

/-- C10 at `"backend"`, which has no separator: the first byte is dropped. -/
theorem C10_extractTargetName_without_separator_witness :
    link.createOptions.extractTargetName (lit "backend") = some (lit "ackend") :=
  ((C10_extractTargetName_without_separator (lit "backend")).1 (by decide)).2.1 (by decide)

/-! ## `ResourceTypeFor` -/

theorem ToLower_of_isASCII (unicodeLower : GoString → GoString) (s : GoString)
    (h : strings.isASCII s = true) :
    strings.ToLower unicodeLower s = s.map (fun c => if 65 ≤ c ∧ c ≤ 90 then c + 32 else c) := by
  unfold strings.ToLower
  rw [if_pos h]
  by_cases hu : strings.hasUpper s = true
  · simp [hu]
  · simp only [hu, Bool.not_false, if_true]
    have hu2 : ∀ c ∈ s, ¬ (65 ≤ c ∧ c ≤ 90) := by
      intro c hc hcu
      apply hu
      simp only [strings.hasUpper, List.any_eq_true]
      exact ⟨c, hc, by simp [hcu.1, hcu.2]⟩
    symm
    calc s.map (fun c => if 65 ≤ c ∧ c ≤ 90 then c + 32 else c)
        = s.map id := List.map_congr_left (fun c hc => by simp [hu2 c hc])
      _ = s := List.map_id s

theorem eqAnyCase_lower (kind name : GoString) (h : eqAnyCase kind name)
    (hname : ∀ n ∈ name, n < 128 ∧ ¬ (65 ≤ n ∧ n ≤ 90)) :
    strings.isASCII kind = true ∧
      kind.map (fun c => if 65 ≤ c ∧ c ≤ 90 then c + 32 else c) = name := by
  induction h with
  | nil => simp [strings.isASCII]
  | @cons c n cs ns hcn _ ih =>
    have hn := hname n (by simp)
    have ih2 := ih (fun x hx => hname x (by simp [hx]))
    have hc : c < 128 ∧ (if 65 ≤ c ∧ c ≤ 90 then c + 32 else c) = n := by
      rcases hcn with e | ⟨h1, h2, h3⟩
      · subst e; exact ⟨hn.1, by simp [hn.2]⟩
      · exact ⟨by omega, by simp [h1, h2, h3]⟩
    constructor
    · have := ih2.1
      simp only [strings.isASCII, List.all_cons, Bool.and_eq_true, decide_eq_true_eq] at this ⊢
      exact ⟨hc.1, this⟩
    · simp only [List.map_cons, hc.2, ih2.2]

theorem eqAnyCase_of_lower (kind name : GoString)
    (h : kind.map (fun c => if 65 ≤ c ∧ c ≤ 90 then c + 32 else c) = name) :
    eqAnyCase kind name := by
  subst h
  induction kind with
  | nil => exact List.Forall₂.nil
  | cons c cs ih =>
    refine List.Forall₂.cons ?_ ih
    by_cases hu : 65 ≤ c ∧ c ≤ 90
    · right; simp [hu]
    · left; simp [hu]

theorem known_lower (m : GoString) (hm : m ∈ cmdutil.KnownResourceTypes) :
    ∀ n ∈ m, n < 128 ∧ ¬ (65 ≤ n ∧ n ≤ 90) := by
  have h : ∀ m ∈ cmdutil.KnownResourceTypes, ∀ n ∈ m, n < 128 ∧ ¬ (65 ≤ n ∧ n ≤ 90) := by
    decide
  exact h m hm

/-- Equality up to letter case with a known type is equality after `strings.ToLower`. -/
theorem eqUpToCase_iff (unicodeLower : GoString → GoString) (kind m : GoString)
    (hm : m ∈ cmdutil.KnownResourceTypes) :
    eqUpToCase unicodeLower kind m ↔ strings.ToLower unicodeLower kind = m := by
  constructor
  · rintro (h | ⟨h1, h2⟩)
    · have := eqAnyCase_lower kind m h (known_lower m hm)
      rw [ToLower_of_isASCII unicodeLower kind this.1, this.2]
    · simp [strings.ToLower, h1, h2]
  · intro h
    by_cases ha : strings.isASCII kind = true
    · left
      rw [ToLower_of_isASCII unicodeLower kind ha] at h
      exact eqAnyCase_of_lower kind m h
    · right
      have ha2 : strings.isASCII kind = false := by simpa using ha
      refine ⟨ha2, ?_⟩
      simpa [strings.ToLower, ha2] using h

theorem loop_of_mem (kind : GoString) (ts : List cmdutil.ResourceType) (h : kind ∈ ts) :
    cmdutil.ResourceTypeFor.loop kind ts = some kind := by
  induction ts with
  | nil => simp at h
  | cons t ts ih =>
    by_cases e : kind = t
    · simp [cmdutil.ResourceTypeFor.loop, cmdutil.ResourceType.String, e]
    · have : kind ∈ ts := by
        rcases List.mem_cons.mp h with h | h
        · exact absurd h e
        · exact h
      simp [cmdutil.ResourceTypeFor.loop, cmdutil.ResourceType.String, e, ih this]

theorem loop_of_not_mem (kind : GoString) (ts : List cmdutil.ResourceType) (h : kind ∉ ts) :
    cmdutil.ResourceTypeFor.loop kind ts = none := by
  induction ts with
  | nil => rfl
  | cons t ts ih =>
    have e : ¬ kind = t := fun e => h (by simp [e])
    have h2 : kind ∉ ts := fun h2 => h (by simp [h2])
    simp [cmdutil.ResourceTypeFor.loop, cmdutil.ResourceType.String, e, ih h2]

/-- C3. `ResourceTypeFor` on a non-nil object: for every member `m` of the
enumeration (Component, Capability, Link) and every kind string that equals the
name of `m` in any letter case, the result is `m` with a nil error; for every
other kind string the result is the empty `ResourceType` with the error
`unknown resource type: <lowercased kind>`. -/
theorem C3_ResourceTypeFor (unicodeLower : GoString → GoString) (kind : GoString) :
    (∀ m : cmdutil.ResourceType,
      (m = cmdutil.Component ∨ m = cmdutil.Capability ∨ m = cmdutil.Link) →
      eqUpToCase unicodeLower kind m →
      cmdutil.ResourceTypeFor unicodeLower (some ⟨kind⟩) = (m, none)) ∧
    ((∀ m : cmdutil.ResourceType,
      (m = cmdutil.Component ∨ m = cmdutil.Capability ∨ m = cmdutil.Link) →
      ¬ eqUpToCase unicodeLower kind m) →
      cmdutil.ResourceTypeFor unicodeLower (some ⟨kind⟩) =
        (lit "", some ⟨lit "unknown resource type: " ++ strings.ToLower unicodeLower kind⟩)) := by
  have hk : ∀ m : cmdutil.ResourceType,
      (m = cmdutil.Component ∨ m = cmdutil.Capability ∨ m = cmdutil.Link) ↔
        m ∈ cmdutil.KnownResourceTypes := by
    intro m
    simp only [cmdutil.KnownResourceTypes, List.mem_cons, List.mem_singleton, List.mem_nil_iff,
      or_false]
    tauto
  constructor
  · intro m hm h
    have hm2 := (hk m).mp hm
    have e := (eqUpToCase_iff unicodeLower kind m hm2).mp h
    simp only [cmdutil.ResourceTypeFor, e, loop_of_mem m _ hm2]
  · intro h
    have hn : strings.ToLower unicodeLower kind ∉ cmdutil.KnownResourceTypes := by
      intro hmem
      exact h _ ((hk _).mpr hmem) ((eqUpToCase_iff unicodeLower kind _ hmem).mpr rfl)
    simp only [cmdutil.ResourceTypeFor, loop_of_not_mem _ _ hn]

/-- C3 at the kind `LiNk`, which is `link` in another letter case. -/
theorem C3_ResourceTypeFor_witness :
    cmdutil.ResourceTypeFor id (some ⟨lit "LiNk"⟩) = (cmdutil.Link, none) ∧
      cmdutil.ResourceTypeFor id (some ⟨lit "Links"⟩) =
        (lit "", some ⟨lit "unknown resource type: links"⟩) :=
  ⟨(C3_ResourceTypeFor id (lit "LiNk")).1 cmdutil.Link (Or.inr (Or.inr rfl))
    (Or.inl (by
      unfold eqAnyCase sameLetter
      decide)),
   (C3_ResourceTypeFor id (lit "Links")).2 (by
      intro m hm
      unfold eqUpToCase eqAnyCase sameLetter
      rcases hm with h | h | h <;> subst h <;> decide)⟩

/-! ## The link workflow: `Complete`, `Validate`, `Build` -/

theorem length_pos_of_ne_nil {α : Type} (l : List α) (h : l ≠ []) :
    decide (l.length > 0) = true := by
  cases l with
  | nil => exact absurd rfl h
  | cons a as => simp

/-- C4. Entry check of `createOptions.Complete`: when the secret name is
non-empty and at least one env pair is supplied, `Complete` returns the error
"either pass a secret name or environment variables, not both" with no list
query and no prompt issued before, and the receiver (so `targetName`, `secret`
and `linkType`) is unchanged. -/
theorem C4_Complete_secret_and_env (ui : UI) (client : Client) (o : link.createOptions)
    (hs : o.secret ≠ []) (he : o.EnvOptions.EnvPairs ≠ []) :
    o.Complete ui client =
      ⟨.returned (some ⟨lit
        "invalid parameter combination: either pass a secret name or environment variables, not both"⟩),
        o, []⟩ := by
  simp [link.createOptions.Complete, length_pos_of_ne_nil _ hs, length_pos_of_ne_nil _ he, Errorf]

/-- C4 at `--secret db-secret --env FOO=bar`. -/
theorem C4_Complete_secret_and_env_witness :
    let o : link.createOptions :=
      { targetName := lit "backend", secret := lit "db-secret", linkType := [],
        CreateOptions := ⟨lit "l", ⟨lit "demo"⟩⟩, EnvOptions := ⟨[lit "FOO=bar"], []⟩,
        target := none }
    (o.Complete exampleUI exampleClient).outcome = .returned (some ⟨lit
        "invalid parameter combination: either pass a secret name or environment variables, not both"⟩) ∧
      (o.Complete exampleUI exampleClient).state = o ∧
      (o.Complete exampleUI exampleClient).trace = [] :=
  let o : link.createOptions :=
      { targetName := lit "backend", secret := lit "db-secret", linkType := [],
        CreateOptions := ⟨lit "l", ⟨lit "demo"⟩⟩, EnvOptions := ⟨[lit "FOO=bar"], []⟩,
        target := none }
  have h := C4_Complete_secret_and_env exampleUI exampleClient o (by decide) (by decide)
  ⟨congrArg link.Run.outcome h, congrArg link.Run.state h, congrArg link.Run.trace h⟩

/-- C7. No targets: when the entry check passes, both list queries succeed and
both catalogs are empty, `createOptions.Complete` returns the error "no valid
capabilities or components currently exist on the cluster"; the only calls made
are the two list queries (no selection prompt, yes/no prompt or selection
announcement), and the receiver is unchanged.  The same holds for
`options.Complete` of `kreate`, which has no entry check. -/
theorem C7_Complete_no_targets (ui : UI) (client : Client)
    (hcaps : client.capabilities = .ok []) (hcomps : client.components = .ok []) :
    (∀ o : link.createOptions, ¬ (o.secret ≠ [] ∧ o.EnvOptions.EnvPairs ≠ []) →
      o.Complete ui client =
        ⟨.returned (some ⟨lit
          "no valid capabilities or components currently exist on the cluster"⟩),
          o, [Event.listCapabilities, Event.listComponents]⟩) ∧
    (∀ (kind : kreate.EnumValue) (o : kreate.options),
      o.Complete ui client kind =
        ⟨.returned (some ⟨lit
          "no valid capabilities or components currently exist on the cluster"⟩),
          o, [Event.listCapabilities, Event.listComponents]⟩) := by
  constructor
  · intro o h
    have hb : (decide (o.secret.length > 0) && decide (o.EnvOptions.EnvPairs.length > 0))
        = false := by
      rw [Bool.eq_false_iff]
      intro hb
      simp only [Bool.and_eq_true, decide_eq_true_eq] at hb
      exact h ⟨List.ne_nil_of_length_pos hb.1, List.ne_nil_of_length_pos hb.2⟩
    simp only [link.createOptions.Complete, hb,
      checkAndGetValidTargets_ok client o [] [] hcaps hcomps]
    simp [Errorf]
  · intro kind o
    simp only [kreate.options.Complete,
      kreate_checkAndGetValidTargets_ok client o [] [] hcaps hcomps]
    simp [Errorf]

/-- C7 on the empty cluster with no flag given. -/
theorem C7_Complete_no_targets_witness :
    let o : link.createOptions :=
      { targetName := [], secret := [], linkType := [],
        CreateOptions := ⟨lit "l", ⟨lit "demo"⟩⟩, EnvOptions := ⟨[], []⟩, target := none }
    o.Complete exampleUI emptyClient =
      ⟨.returned (some ⟨lit
        "no valid capabilities or components currently exist on the cluster"⟩),
        o, [Event.listCapabilities, Event.listComponents]⟩ :=
  (C7_Complete_no_targets exampleUI emptyClient rfl rfl).1 _ (by decide)

/-- C8. `Build` is idempotent: a second `Build` returns the entity that the first
one returned, which is the stored entity, and leaves the receiver as the first
call left it. -/
theorem C8_Build_idempotent (o : link.createOptions) :
    (link.createOptions.Build (link.createOptions.Build o).2).1 =
        (link.createOptions.Build o).1 ∧
      (link.createOptions.Build (link.createOptions.Build o).2).2 =
        (link.createOptions.Build o).2 ∧
      (link.createOptions.Build o).2.target = some (link.createOptions.Build o).1 := by
  cases h : o.target with
  | none => simp [link.createOptions.Build, h]
  | some l => simp [link.createOptions.Build, h]

/-! ## Env pairs -/

theorem Split_ne_nil (s : GoString) (sep : Nat) : strings.Split s sep ≠ [] := by
  cases s with
  | nil => simp [strings.Split]
  | cons c cs =>
    rw [strings.Split]
    split_ifs
    · simp
    · split <;> simp

theorem Split_length (s : GoString) (sep : Nat) :
    (strings.Split s sep).length = s.count sep + 1 := by
  induction s with
  | nil => simp [strings.Split]
  | cons c cs ih =>
    rw [strings.Split]
    by_cases h : c = sep
    · subst h; simp [ih]
    · have h2 : ¬ (c == sep) = true := by simpa using h
      rw [if_neg h, List.count_cons, if_neg h2, ← ih]
      have := Split_ne_nil cs sep
      split
      · rename_i e; exact absurd e this
      · rename_i p ps e; simp [e]

theorem Split_of_not_mem (s : GoString) (sep : Nat) (h : sep ∉ s) :
    strings.Split s sep = [s] := by
  induction s with
  | nil => simp [strings.Split]
  | cons c cs ih =>
    have hc : ¬ c = sep := fun e => h (by simp [e])
    have hcs : sep ∉ cs := fun e => h (by simp [e])
    rw [strings.Split, if_neg hc, ih hcs]

theorem Split_append (n v : GoString) (sep : Nat) (h : sep ∉ n) :
    strings.Split (n ++ sep :: v) sep = n :: strings.Split v sep := by
  induction n with
  | nil => simp [strings.Split]
  | cons c cs ih =>
    have hc : ¬ c = sep := fun e => h (by simp [e])
    have hcs : sep ∉ cs := fun e => h (by simp [e])
    rw [List.cons_append, strings.Split, if_neg hc, ih hcs]

/-- A string with exactly one separator byte is the text before it, the byte, the text after it. -/
theorem exists_of_count_one (s : GoString) (sep : Nat) (h : s.count sep = 1) :
    ∃ n v : GoString, s = n ++ sep :: v ∧ sep ∉ n ∧ sep ∉ v := by
  have hmem : sep ∈ s := List.count_pos_iff.mp (by omega)
  obtain ⟨n, v, hs, hn⟩ := List.eq_append_cons_of_mem hmem
  refine ⟨n, v, hs, hn, ?_⟩
  intro hv
  have h1 : 0 < v.count sep := List.count_pos_iff.mpr hv
  rw [hs, List.count_append, List.count_cons_self] at h
  omega

theorem parseEnvPair_of_count_one (pair : GoString) (h : pair.count 61 = 1) :
    ∃ n v : GoString, pair = n ++ 61 :: v ∧ 61 ∉ n ∧ 61 ∉ v ∧ parseEnvPair pair = .ok ⟨n, v⟩ := by
  obtain ⟨n, v, hs, hn, hv⟩ := exists_of_count_one pair 61 h
  refine ⟨n, v, hs, hn, hv, ?_⟩
  simp [parseEnvPair, hs, Split_append n v 61 hn, Split_of_not_mem v 61 hv]

theorem parseEnvPair_of_count_ne_one (pair : GoString) (h : pair.count 61 ≠ 1) :
    parseEnvPair pair = .error ⟨lit "invalid environment variable: " ++ pair ++
      lit ", format must be \x27name=value\x27"⟩ := by
  have hl := Split_length pair 61
  unfold parseEnvPair
  split
  · rename_i n v e
    rw [e] at hl
    simp at hl
    omega
  · rfl

/-- The loop on pairs that all have exactly one `=`: all are appended, in input order. -/
theorem parseEnvPairs_all_ok (pairs : List GoString) (envs : List NameValuePair)
    (h : ∀ p ∈ pairs, p.count 61 = 1) :
    ∃ nvs : List NameValuePair, parseEnvPairs pairs envs = (none, envs ++ nvs) ∧
      List.Forall₂ (fun p nv => p = nv.Name ++ 61 :: nv.Value ∧ 61 ∉ nv.Name ∧ 61 ∉ nv.Value)
        pairs nvs := by
  induction pairs generalizing envs with
  | nil => exact ⟨[], by simp [parseEnvPairs], List.Forall₂.nil⟩
  | cons p ps ih =>
    obtain ⟨n, v, hp, hn, hv, he⟩ := parseEnvPair_of_count_one p (h p (by simp))
    obtain ⟨nvs, h1, h2⟩ := ih (envs ++ [⟨n, v⟩]) (fun q hq => h q (by simp [hq]))
    refine ⟨⟨n, v⟩ :: nvs, ?_, List.Forall₂.cons ⟨hp, hn, hv⟩ h2⟩
    rw [parseEnvPairs, he]
    simp [h1]

/-- The loop up to the first pair without exactly one `=`: it returns the error
citing that pair, with the pairs before it appended. -/
theorem parseEnvPairs_first_bad (good : List GoString) (bad : GoString)
    (rest : List GoString) (envs : List NameValuePair)
    (h : ∀ p ∈ good, p.count 61 = 1) (hb : bad.count 61 ≠ 1) :
    ∃ nvs : List NameValuePair,
      parseEnvPairs (good ++ bad :: rest) envs =
        (some ⟨lit "invalid environment variable: " ++ bad ++
          lit ", format must be \x27name=value\x27"⟩, envs ++ nvs) ∧
      List.Forall₂ (fun p nv => p = nv.Name ++ 61 :: nv.Value ∧ 61 ∉ nv.Name ∧ 61 ∉ nv.Value)
        good nvs := by
  induction good generalizing envs with
  | nil =>
    refine ⟨[], ?_, List.Forall₂.nil⟩
    rw [List.nil_append, parseEnvPairs, parseEnvPair_of_count_ne_one bad hb]
    simp
  | cons p ps ih =>
    obtain ⟨n, v, hp, hn, hv, he⟩ := parseEnvPair_of_count_one p (h p (by simp))
    obtain ⟨nvs, h1, h2⟩ := ih (envs ++ [⟨n, v⟩]) (fun q hq => h q (by simp [hq]))
    refine ⟨⟨n, v⟩ :: nvs, ?_, List.Forall₂.cons ⟨hp, hn, hv⟩ h2⟩
    rw [List.cons_append, parseEnvPairs, he]
    simp [h1]

/-! ## The link workflow with pre-supplied input -/

theorem secretsLoop_eq (secret : GoString) (items known : List GoString) (valid : Bool) :
    link.secretsLoop secret items (known, valid) =
      (known ++ items, valid || decide (secret ∈ items)) := by
  induction items generalizing known valid with
  | nil => simp [link.secretsLoop]
  | cons c cs ih =>
    rw [link.secretsLoop, ih]
    by_cases hc : c = secret
    · cases valid <;> simp [hc]
    · have hc2 : ¬ secret = c := fun e => hc e.symm
      cases valid <;> simp [hc, hc2]

theorem checkAndGetValidSecrets_ok (client : Client) (o : link.createOptions)
    (secrets : List GoString) (hsec : client.secrets = .ok secrets) :
    o.checkAndGetValidSecrets client =
      ((secrets, decide (o.secret ∈ secrets), none), [Event.listSecrets]) := by
  simp [link.createOptions.checkAndGetValidSecrets, hsec, secretsLoop_eq]

/-- C6. Fully pre-supplied valid input: when the list queries succeed, the
target name is the name of an existing capability or component, the secret name
is non-empty and the name of a listed opaque secret, no env pairs are supplied
and no entity is stored yet, `Complete` returns nil; its calls are the two
target list queries, the two selection announcements and the secret list query
(no selection prompt and no yes/no prompt); `Validate` returns nil; and `Build`
returns a Link whose target component name is the supplied target, whose type
is Secret, whose secret reference is the supplied secret and whose namespace is
the namespace of the entity client. -/
theorem C6_Complete_Build_presupplied (ui : UI) (client : Client) (o : link.createOptions)
    (caps comps secrets : List GoString)
    (hcaps : client.capabilities = .ok caps) (hcomps : client.components = .ok comps)
    (hsec : client.secrets = .ok secrets)
    (ht : o.targetName ∈ caps ∨ o.targetName ∈ comps)
    (hs : o.secret ≠ []) (hin : o.secret ∈ secrets)
    (he : o.EnvOptions.EnvPairs = []) (hnil : o.target = none) :
    (o.Complete ui client).outcome = .returned none ∧
      (o.Complete ui client).trace =
        [Event.listCapabilities, Event.listComponents,
         Event.outputSelection (lit "Selected target") o.targetName,
         Event.outputSelection (lit "Selected link type") (lit "Secret"),
         Event.listSecrets] ∧
      link.createOptions.Validate (o.Complete ui client).state = none ∧
      (link.createOptions.Build (o.Complete ui client).state).1 =
        { ObjectMeta :=
            { Name := o.CreateOptions.Name, Namespace := o.CreateOptions.Client.GetNamespace }
          Spec :=
            { ComponentName := o.targetName, Type_ := link.SecretLinkType, Ref := o.secret,
              Envs := o.EnvOptions.Envs } } := by
  have hcand : (caps.map (fun c => lit "capability" ++ link.targetSeparator ++ c) ++
      comps.map (fun c => lit "component" ++ link.targetSeparator ++ c)).length ≠ 0 := by
    rw [List.length_append, List.length_map, List.length_map]
    rcases ht with h | h
    · have := List.length_pos_of_mem h
      omega
    · have := List.length_pos_of_mem h
      omega
  have hvalid : (decide (o.targetName ∈ caps) || decide (o.targetName ∈ comps)) = true := by
    rcases ht with h | h <;> simp [h]
  have hslen : secrets.length ≠ 0 := by
    have := List.length_pos_of_mem hin
    omega
  have hC : o.Complete ui client =
      ⟨.returned none, { o with linkType := link.SecretLinkType },
        [Event.listCapabilities, Event.listComponents,
         Event.outputSelection (lit "Selected target") o.targetName,
         Event.outputSelection (lit "Selected link type") (lit "Secret"),
         Event.listSecrets]⟩ := by
    simp only [link.createOptions.Complete, length_pos_of_ne_nil _ hs, he,
      checkAndGetValidTargets_ok client o caps comps hcaps hcomps, if_neg hcand, hvalid,
      link.createOptions.completeDecision, link.createOptions.completeMechanism,
      checkAndGetValidSecrets_ok client _ secrets hsec, if_neg hslen]
    simp [hin, link.LinkType.String, link.SecretLinkType]
  rw [hC]
  refine ⟨rfl, rfl, rfl, ?_⟩
  simp [link.createOptions.Build, hnil]

/-- C6 at the spec example: component `api`, `--target api --secret db-secret`,
and the secret `db-secret` exists. -/
theorem C6_Complete_Build_presupplied_witness :
    (apiOptions.Complete exampleUI apiClient).outcome = .returned none ∧
      (apiOptions.Complete exampleUI apiClient).trace =
        [Event.listCapabilities, Event.listComponents,
         Event.outputSelection (lit "Selected target") (lit "api"),
         Event.outputSelection (lit "Selected link type") (lit "Secret"),
         Event.listSecrets] ∧
      (link.createOptions.Build (apiOptions.Complete exampleUI apiClient).state).1 =
        { ObjectMeta := { Name := lit "web-link", Namespace := lit "demo" }
          Spec :=
            { ComponentName := lit "api", Type_ := link.SecretLinkType,
              Ref := lit "db-secret", Envs := [] } } :=
  have h := C6_Complete_Build_presupplied exampleUI apiClient apiOptions [] [lit "api"]
    [lit "db-secret"] rfl rfl rfl (by decide) (by decide) (by decide) rfl rfl
  ⟨h.1, h.2.1, h.2.2.2⟩

/-! ## The payload of a built Link -/

theorem completeMechanism_state (ui : UI) (client : Client) (useSecret : Bool)
    (o : link.createOptions) (tr : List Event) :
    (o.completeMechanism ui client useSecret tr).state.target = o.target ∧
      (useSecret = true →
        (o.completeMechanism ui client useSecret tr).state.linkType = link.SecretLinkType ∧
        (o.completeMechanism ui client useSecret tr).state.EnvOptions = o.EnvOptions) ∧
      (useSecret = false →
        (o.completeMechanism ui client useSecret tr).state.linkType = link.EnvLinkType ∧
        (o.completeMechanism ui client useSecret tr).state.secret = o.secret) := by
  cases useSecret with
  | true =>
    simp only [link.createOptions.completeMechanism, if_true]
    split
    · simp
    · split_ifs <;> simp
  | false =>
    simp only [link.createOptions.completeMechanism, Bool.false_eq_true, if_false]
    split <;> simp

theorem completeDecision_state (ui : UI) (client : Client) (useSecret useEnv : Bool)
    (o : link.createOptions) (tr : List Event) :
    (o.completeDecision ui client useSecret useEnv tr).state.target = o.target ∧
      (((o.completeDecision ui client useSecret useEnv tr).state.linkType = link.SecretLinkType ∧
        (o.completeDecision ui client useSecret useEnv tr).state.EnvOptions = o.EnvOptions) ∨
       ((o.completeDecision ui client useSecret useEnv tr).state.linkType = link.EnvLinkType ∧
        (o.completeDecision ui client useSecret useEnv tr).state.secret = o.secret ∧
        useSecret = false)) := by
  unfold link.createOptions.completeDecision
  split_ifs with h
  · have hu : useSecret = false := by
      cases useSecret <;> simp at h ⊢
    have := completeMechanism_state ui client (ui.Proceed tr (lit "Use Secret")) o
      (tr ++ [Event.proceed (lit "Use Secret")])
    refine ⟨this.1, ?_⟩
    cases hp : ui.Proceed tr (lit "Use Secret") with
    | true => rw [hp] at this; exact Or.inl (this.2.1 rfl)
    | false => rw [hp] at this; exact Or.inr ⟨(this.2.2 rfl).1, (this.2.2 rfl).2, hu⟩
  · have := completeMechanism_state ui client useSecret o tr
    refine ⟨this.1, ?_⟩
    cases useSecret with
    | true => exact Or.inl (this.2.1 rfl)
    | false => exact Or.inr ⟨(this.2.2 rfl).1, (this.2.2 rfl).2, rfl⟩

/-- After a `Complete` that returned nil: the stored entity is untouched, the
entry check passed, and the receiver is either set up for a Secret link with the
env options untouched, or for an Env link with an empty secret name. -/
theorem Complete_state (ui : UI) (client : Client) (o : link.createOptions)
    (hok : (o.Complete ui client).outcome = .returned none) :
    (o.Complete ui client).state.target = o.target ∧
      ¬ (o.secret ≠ [] ∧ o.EnvOptions.EnvPairs ≠ []) ∧
      (((o.Complete ui client).state.linkType = link.SecretLinkType ∧
        (o.Complete ui client).state.EnvOptions = o.EnvOptions) ∨
       ((o.Complete ui client).state.linkType = link.EnvLinkType ∧
        (o.Complete ui client).state.secret = [])) := by
  have hsec : decide (o.secret.length > 0) = false → o.secret = [] := by
    intro h
    cases hs : o.secret with
    | nil => rfl
    | cons a as => simp [hs] at h
  by_cases hboth : (decide (o.secret.length > 0) &&
      decide (o.EnvOptions.EnvPairs.length > 0)) = true
  · simp [link.createOptions.Complete, hboth] at hok
  · have hnot : ¬ (o.secret ≠ [] ∧ o.EnvOptions.EnvPairs ≠ []) := by
      rintro ⟨h1, h2⟩
      exact hboth (by simp [length_pos_of_ne_nil _ h1, length_pos_of_ne_nil _ h2])
    have key : ∀ (o2 : link.createOptions) (tr : List Event),
        o2.target = o.target → o2.secret = o.secret →
        o.Complete ui client = o2.completeDecision ui client (decide (o.secret.length > 0))
          (decide (o.EnvOptions.EnvPairs.length > 0)) tr →
        o2.EnvOptions = o.EnvOptions →
        (o.Complete ui client).state.target = o.target ∧
          ¬ (o.secret ≠ [] ∧ o.EnvOptions.EnvPairs ≠ []) ∧
          (((o.Complete ui client).state.linkType = link.SecretLinkType ∧
            (o.Complete ui client).state.EnvOptions = o.EnvOptions) ∨
           ((o.Complete ui client).state.linkType = link.EnvLinkType ∧
            (o.Complete ui client).state.secret = [])) := by
      intro o2 tr ht hs e henv
      have := completeDecision_state ui client (decide (o.secret.length > 0))
        (decide (o.EnvOptions.EnvPairs.length > 0)) o2 tr
      rw [e]
      refine ⟨this.1.trans ht, hnot, ?_⟩
      rcases this.2 with h | h
      · exact Or.inl ⟨h.1, h.2.trans henv⟩
      · exact Or.inr ⟨h.1, by rw [h.2.1, hs]; exact hsec h.2.2⟩
    rcases hT : o.checkAndGetValidTargets client with ⟨⟨cands, valid, err⟩, evs⟩
    cases err with
    | some e => simp [link.createOptions.Complete, hboth, hT] at hok
    | none =>
      by_cases hlen : cands.length = 0
      · simp [link.createOptions.Complete, hboth, hT, hlen] at hok
      · cases valid with
        | true =>
          exact key o (evs ++ [Event.outputSelection (lit "Selected target") o.targetName])
            rfl rfl (by simp [link.createOptions.Complete, hboth, hT, hlen]) rfl
        | false =>
          cases hx : link.createOptions.extractTargetName
              (ui.Select (evs ++ [Event.outputSelection (lit "Selected target") o.targetName])
                (lit "Target") cands) with
          | none => simp [link.createOptions.Complete, hboth, hT, hlen, hx] at hok
          | some n =>
            exact key { o with targetName := n }
              (evs ++ [Event.outputSelection (lit "Selected target") o.targetName,
                Event.select (lit "Target") cands]) rfl rfl
              (by simp [link.createOptions.Complete, hboth, hT, hlen, hx]) rfl

/-- The Link that `kreate` submits in `options.Run` carries neither payload. -/
theorem kreate_Run_payload (client : Client) (kind : kreate.EnumValue) (o : kreate.options) :
    (o.Run client kind).Spec.Ref = [] ∧ (o.Run client kind).Spec.Envs = [] :=
  ⟨rfl, rfl⟩

/-- C9, as stated, fails: with `--target backend`, no secret and no env pairs, and
a user who answers no to "Use Secret", `Complete` and `Validate` return nil and
`Build` returns a Link whose secret reference and env pairs are both empty. -/
theorem C9_payload_counterexample :
    (bareOptions.Complete exampleUI exampleClient).outcome = .returned none ∧
      link.createOptions.Validate (bareOptions.Complete exampleUI exampleClient).state = none ∧
      (link.createOptions.Build (bareOptions.Complete exampleUI exampleClient).state).1.Spec.Ref
        = [] ∧
      (link.createOptions.Build (bareOptions.Complete exampleUI exampleClient).state).1.Spec.Envs
        = [] ∧
      ¬ exactlyOnePayload
        (link.createOptions.Build (bareOptions.Complete exampleUI exampleClient).state).1 := by
  decide

/-- C9, amended. For a Link built after a `Complete` and a `Validate` that both
returned nil, from a receiver with no env values derived and no entity stored:
the input did not have both a secret name and env pairs; the Link is a Secret
link without env pairs or an Env link without a secret reference; so the secret
reference and the env pairs are never both non-empty (both may be empty). -/
theorem C9_payload_at_most_one (ui : UI) (client : Client) (o : link.createOptions)
    (henvs : o.EnvOptions.Envs = []) (hnil : o.target = none)
    (hok : (o.Complete ui client).outcome = .returned none)
    (_hval : link.createOptions.Validate (o.Complete ui client).state = none) :
    ¬ (o.secret ≠ [] ∧ o.EnvOptions.EnvPairs ≠ []) ∧
      (((link.createOptions.Build (o.Complete ui client).state).1.Spec.Type_
            = link.SecretLinkType ∧
          (link.createOptions.Build (o.Complete ui client).state).1.Spec.Envs = []) ∨
        ((link.createOptions.Build (o.Complete ui client).state).1.Spec.Type_
            = link.EnvLinkType ∧
          (link.createOptions.Build (o.Complete ui client).state).1.Spec.Ref = [])) ∧
      ¬ ((link.createOptions.Build (o.Complete ui client).state).1.Spec.Ref ≠ [] ∧
        (link.createOptions.Build (o.Complete ui client).state).1.Spec.Envs ≠ []) := by
  obtain ⟨ht, hnot, hst⟩ := Complete_state ui client o hok
  have hb : (link.createOptions.Build (o.Complete ui client).state).1 =
      { ObjectMeta :=
          { Name := (o.Complete ui client).state.CreateOptions.Name
            Namespace := (o.Complete ui client).state.CreateOptions.Client.GetNamespace }
        Spec :=
          { ComponentName := (o.Complete ui client).state.targetName
            Type_ := (o.Complete ui client).state.linkType
            Ref := (o.Complete ui client).state.secret
            Envs := (o.Complete ui client).state.EnvOptions.Envs } } := by
    simp [link.createOptions.Build, ht, hnil]
  rw [hb]
  have hdisj : ((o.Complete ui client).state.linkType = link.SecretLinkType ∧
        (o.Complete ui client).state.EnvOptions.Envs = []) ∨
      ((o.Complete ui client).state.linkType = link.EnvLinkType ∧
        (o.Complete ui client).state.secret = []) := by
    rcases hst with h | h
    · exact Or.inl ⟨h.1, by rw [h.2, henvs]⟩
    · exact Or.inr h
  refine ⟨hnot, hdisj, ?_⟩
  rintro ⟨h1, h2⟩
  rcases hdisj with h | h
  · exact h2 h.2
  · exact h1 h.2

/-- C9, amended, at the end-to-end example: a Secret link without env pairs. -/
theorem C9_payload_at_most_one_witness :
    ¬ ((link.createOptions.Build (apiOptions.Complete exampleUI apiClient).state).1.Spec.Ref
          ≠ [] ∧
        (link.createOptions.Build (apiOptions.Complete exampleUI apiClient).state).1.Spec.Envs
          ≠ []) :=
  (C9_payload_at_most_one exampleUI apiClient apiOptions rfl rfl (by decide) rfl).2.2

/-! ## Env pairs in the two `Complete` functions -/

/-- The loop returns nil only if every pair has exactly one `=`. -/
theorem parseEnvPairs_none (pairs : List GoString) (envs : List NameValuePair)
    (h : (parseEnvPairs pairs envs).1 = none) : ∀ p ∈ pairs, p.count 61 = 1 := by
  induction pairs generalizing envs with
  | nil => intro p hp; simp at hp
  | cons q qs ih =>
    by_cases hq : q.count 61 = 1
    · obtain ⟨n, v, _, _, _, he⟩ := parseEnvPair_of_count_one q hq
      rw [parseEnvPairs, he] at h
      intro p hp
      rcases List.mem_cons.mp hp with e | e
      · rw [e]; exact hq
      · exact ih _ h p e
    · rw [parseEnvPairs, parseEnvPair_of_count_ne_one q hq] at h
      simp at h

theorem kreate_secretsLoop_eq (ref : GoString) (items known : List GoString) (valid : Bool) :
    kreate.secretsLoop ref items (known, valid) =
      (known ++ items, valid || decide (ref ∈ items)) := by
  induction items generalizing known valid with
  | nil => simp [kreate.secretsLoop]
  | cons c cs ih =>
    rw [kreate.secretsLoop, ih]
    by_cases hc : c = ref
    · cases valid <;> simp [hc]
    · have hc2 : ¬ ref = c := fun e => hc e.symm
      cases valid <;> simp [hc, hc2]

/-- The block on the kind (lines 42-63) either hands over to the env-pair loop with
the pairs and the env values untouched, or returns one of its own errors. -/
theorem kreate_completeKind_cases (ui : UI) (client : Client) (kind : kreate.EnumValue)
    (o : kreate.options) (tr : List Event) :
    (∃ (o2 : kreate.options) (tr2 : List Event),
        o.completeKind ui client kind tr = o2.completeEnvs tr2 ∧
        o2.envPairs = o.envPairs ∧ o2.envs = o.envs) ∨
      (∃ e : GoError, (o.completeKind ui client kind tr).outcome = .returned (some e) ∧
        kind.IsProvidedValid = false ∧
        (kind.Set kreate.LinkKind.EnvLinkKind = some e ∨
          (ui.Proceed tr (lit "Use Secret") = true ∧
            (kind.Set kreate.LinkKind.SecretLinkKind = some e ∨
              client.secrets = .error e ∨ client.secrets = .ok [])))) := by
  cases hv : kind.IsProvidedValid with
  | true => exact Or.inl ⟨o, tr, by simp [kreate.options.completeKind, hv], rfl, rfl⟩
  | false =>
    cases h1 : kind.Set kreate.LinkKind.EnvLinkKind with
    | some e =>
      exact Or.inr ⟨e, by simp [kreate.options.completeKind, hv, h1], rfl, Or.inl rfl⟩
    | none =>
      cases hp : ui.Proceed tr (lit "Use Secret") with
      | false =>
        exact Or.inl ⟨o, tr ++ [Event.proceed (lit "Use Secret")],
          by simp [kreate.options.completeKind, hv, h1, hp], rfl, rfl⟩
      | true =>
        cases h2 : kind.Set kreate.LinkKind.SecretLinkKind with
        | some e =>
          exact Or.inr ⟨e, by simp [kreate.options.completeKind, hv, h1, hp, h2], rfl,
            Or.inr ⟨rfl, Or.inl rfl⟩⟩
        | none =>
          cases hs : client.secrets with
          | error e =>
            exact Or.inr ⟨e, by
              simp [kreate.options.completeKind, hv, h1, hp, h2,
                kreate.options.checkAndGetValidSecrets, hs], rfl,
              Or.inr ⟨rfl, Or.inr (Or.inl rfl)⟩⟩
          | ok secrets =>
            cases secrets with
            | nil =>
              exact Or.inr ⟨Errorf "no valid secrets currently exist on the cluster", by
                simp [kreate.options.completeKind, hv, h1, hp, h2,
                  kreate.options.checkAndGetValidSecrets, hs, kreate_secretsLoop_eq], rfl,
                Or.inr ⟨rfl, Or.inr (Or.inr rfl)⟩⟩
            | cons a as =>
              by_cases hin : o.ref ∈ a :: as
              · exact Or.inl ⟨o,
                  tr ++ [Event.proceed (lit "Use Secret")] ++ [Event.listSecrets], by
                  simp [kreate.options.completeKind, hv, h1, hp, h2,
                    kreate.options.checkAndGetValidSecrets, hs, kreate_secretsLoop_eq, hin],
                  rfl, rfl⟩
              · exact Or.inl ⟨⟨o.targetName,
                    ui.Select (tr ++ [Event.proceed (lit "Use Secret")] ++ [Event.listSecrets])
                      (lit "Secret") (a :: as),
                    o.envPairs, o.envs, o.ComponentName⟩,
                  tr ++ [Event.proceed (lit "Use Secret")] ++ [Event.listSecrets] ++
                    [Event.select (lit "Secret") (a :: as)], by
                  simp [kreate.options.completeKind, hv, h1, hp, h2,
                    kreate.options.checkAndGetValidSecrets, hs, kreate_secretsLoop_eq, hin],
                  rfl, rfl⟩

/-- A `Complete` of `kreate` that returned nil went through the env-pair loop. -/
theorem kreate_Complete_nil (ui : UI) (client : Client) (kind : kreate.EnumValue)
    (o : kreate.options) (hok : (o.Complete ui client kind).outcome = .returned none) :
    ∃ (o2 : kreate.options) (tr2 : List Event),
      o.Complete ui client kind = o2.completeEnvs tr2 ∧
      o2.envPairs = o.envPairs ∧ o2.envs = o.envs := by
  have key : ∀ (o1 : kreate.options) (tr : List Event),
      o.Complete ui client kind = o1.completeKind ui client kind tr →
      o1.envPairs = o.envPairs → o1.envs = o.envs →
      ∃ (o2 : kreate.options) (tr2 : List Event),
        o.Complete ui client kind = o2.completeEnvs tr2 ∧
        o2.envPairs = o.envPairs ∧ o2.envs = o.envs := by
    intro o1 tr e h1 h2
    rcases kreate_completeKind_cases ui client kind o1 tr with ⟨o2, tr2, h, hp, he⟩ | ⟨e2, h, _⟩
    · exact ⟨o2, tr2, e.trans h, hp.trans h1, he.trans h2⟩
    · rw [e, h] at hok
      simp at hok
  rcases hT : o.checkAndGetValidTargets client with ⟨⟨cands, valid, err⟩, evs⟩
  cases err with
  | some e => simp [kreate.options.Complete, hT] at hok
  | none =>
    by_cases hlen : cands.length = 0
    · simp [kreate.options.Complete, hT, hlen] at hok
    · cases valid with
      | true =>
        exact key o evs (by simp [kreate.options.Complete, hT, hlen]) rfl rfl
      | false =>
        exact key ⟨ui.Select evs (lit "Target") cands, o.ref, o.envPairs, o.envs,
            o.ComponentName⟩ (evs ++ [Event.select (lit "Target") cands])
          (by simp [kreate.options.Complete, hT, hlen]) rfl rfl

/-- With targets on the cluster and a block on the kind that cannot fail,
`Complete` of `kreate` reaches the env-pair loop. -/
theorem kreate_Complete_reach (ui : UI) (client : Client) (kind : kreate.EnumValue)
    (o : kreate.options) (caps comps : List GoString)
    (hcaps : client.capabilities = .ok caps) (hcomps : client.components = .ok comps)
    (hne : caps ≠ [] ∨ comps ≠ [])
    (hkind : kind.IsProvidedValid = true ∨
      (kind.Set kreate.LinkKind.EnvLinkKind = none ∧
        ((∀ tr : List Event, ui.Proceed tr (lit "Use Secret") = false) ∨
          (kind.Set kreate.LinkKind.SecretLinkKind = none ∧
            ∃ secrets : List GoString, client.secrets = .ok secrets ∧ secrets ≠ [])))) :
    ∃ (o2 : kreate.options) (tr2 : List Event),
      o.Complete ui client kind = o2.completeEnvs tr2 ∧
      o2.envPairs = o.envPairs ∧ o2.envs = o.envs := by
  have key : ∀ (o1 : kreate.options) (tr : List Event),
      o.Complete ui client kind = o1.completeKind ui client kind tr →
      o1.envPairs = o.envPairs → o1.envs = o.envs →
      ∃ (o2 : kreate.options) (tr2 : List Event),
        o.Complete ui client kind = o2.completeEnvs tr2 ∧
        o2.envPairs = o.envPairs ∧ o2.envs = o.envs := by
    intro o1 tr e h1 h2
    rcases kreate_completeKind_cases ui client kind o1 tr with
      ⟨o2, tr2, h, hp, he⟩ | ⟨e2, _, hv, hfail⟩
    · exact ⟨o2, tr2, e.trans h, hp.trans h1, he.trans h2⟩
    · exfalso
      rcases hkind with hk | ⟨hset, hrest⟩
      · rw [hv] at hk; cases hk
      · rcases hfail with hf | ⟨hp, hf⟩
        · rw [hset] at hf; cases hf
        · rcases hrest with hno | ⟨hset2, secrets, hs, hsne⟩
          · rw [hno tr] at hp; cases hp
          · rcases hf with hf | hf | hf
            · rw [hset2] at hf; cases hf
            · rw [hs] at hf; cases hf
            · rw [hs] at hf
              injection hf with hf
              exact hsne hf
  have hlen : (caps.map (fun c => lit "capability" ++ lit ": " ++ c) ++
      comps.map (fun c => lit "component" ++ lit ": " ++ c)).length ≠ 0 := by
    rw [List.length_append, List.length_map, List.length_map]
    rcases hne with h | h
    · have := List.length_pos.mpr h
      omega
    · have := List.length_pos.mpr h
      omega
  have hT := kreate_checkAndGetValidTargets_ok client o caps comps hcaps hcomps
  cases hv : (decide (o.targetName ∈ caps) || decide (o.targetName ∈ comps)) with
  | true =>
    rw [hv] at hT
    exact key o [Event.listCapabilities, Event.listComponents]
      (by simp only [kreate.options.Complete, hT, if_neg hlen]; simp) rfl rfl
  | false =>
    rw [hv] at hT
    exact key ⟨ui.Select [Event.listCapabilities, Event.listComponents] (lit "Target")
        (caps.map (fun c => lit "capability" ++ lit ": " ++ c) ++
          comps.map (fun c => lit "component" ++ lit ": " ++ c)), o.ref, o.envPairs, o.envs,
        o.ComponentName⟩
      ([Event.listCapabilities, Event.listComponents] ++ [Event.select (lit "Target")
        (caps.map (fun c => lit "capability" ++ lit ": " ++ c) ++
          comps.map (fun c => lit "component" ++ lit ": " ++ c))])
      (by simp only [kreate.options.Complete, hT, if_neg hlen]; simp) rfl rfl

/-- The env branch of `completeMechanism`: the outcome and the env values are those of the loop. -/
theorem completeMechanism_env (ui : UI) (client : Client) (o : link.createOptions)
    (tr : List Event) :
    (o.completeMechanism ui client false tr).outcome =
        .returned (parseEnvPairs o.EnvOptions.EnvPairs o.EnvOptions.Envs).1 ∧
      (o.completeMechanism ui client false tr).state.EnvOptions.Envs =
        (parseEnvPairs o.EnvOptions.EnvPairs o.EnvOptions.Envs).2 := by
  simp only [link.createOptions.completeMechanism, Bool.false_eq_true, if_false,
    link.EnvOptions.Complete]
  cases h : (parseEnvPairs o.EnvOptions.EnvPairs o.EnvOptions.Envs).1 <;> simp [h]

/-- From the mechanism decision on: a nil return means the loop accepted every
pair, and the env values are those the loop leaves. -/
theorem completeDecision_envs (ui : UI) (client : Client) (useSecret useEnv : Bool)
    (o : link.createOptions) (tr : List Event)
    (hboth : (useSecret && useEnv) = false)
    (henv : useEnv = decide (o.EnvOptions.EnvPairs.length > 0))
    (hok : (o.completeDecision ui client useSecret useEnv tr).outcome = .returned none) :
    (parseEnvPairs o.EnvOptions.EnvPairs o.EnvOptions.Envs).1 = none ∧
      (o.completeDecision ui client useSecret useEnv tr).state.EnvOptions.Envs =
        (parseEnvPairs o.EnvOptions.EnvPairs o.EnvOptions.Envs).2 := by
  have hnil : useEnv = false → o.EnvOptions.EnvPairs = [] := by
    intro h
    rw [h] at henv
    cases hp : o.EnvOptions.EnvPairs with
    | nil => rfl
    | cons a as => simp [hp] at henv
  have hsecret : ∀ tr2 : List Event, useEnv = false →
      (parseEnvPairs o.EnvOptions.EnvPairs o.EnvOptions.Envs).1 = none ∧
        (o.completeMechanism ui client true tr2).state.EnvOptions.Envs =
          (parseEnvPairs o.EnvOptions.EnvPairs o.EnvOptions.Envs).2 := by
    intro tr2 h
    have hs := (completeMechanism_state ui client true o tr2).2.1 rfl
    rw [hs.2, hnil h]
    simp [parseEnvPairs]
  have henvb : ∀ tr2 : List Event,
      (o.completeMechanism ui client false tr2).outcome = .returned none →
      (parseEnvPairs o.EnvOptions.EnvPairs o.EnvOptions.Envs).1 = none ∧
        (o.completeMechanism ui client false tr2).state.EnvOptions.Envs =
          (parseEnvPairs o.EnvOptions.EnvPairs o.EnvOptions.Envs).2 := by
    intro tr2 h
    have hm := completeMechanism_env ui client o tr2
    rw [hm.1] at h
    exact ⟨by simpa using h, hm.2⟩
  cases useSecret with
  | true =>
    have hue : useEnv = false := by simpa using hboth
    subst hue
    simp only [link.createOptions.completeDecision] at hok ⊢
    simp only [Bool.not_true, Bool.false_and, Bool.false_eq_true, if_false] at hok ⊢
    exact hsecret tr rfl
  | false =>
    cases useEnv with
    | true =>
      simp only [link.createOptions.completeDecision] at hok ⊢
      simp only [Bool.not_true, Bool.and_false, Bool.false_eq_true, if_false] at hok ⊢
      exact henvb tr hok
    | false =>
      simp only [link.createOptions.completeDecision] at hok ⊢
      simp only [Bool.not_false, Bool.and_self, if_true] at hok ⊢
      cases hp : ui.Proceed tr (lit "Use Secret") with
      | true => exact hsecret _ rfl
      | false => rw [hp] at hok; exact henvb _ hok

/-- A `Complete` of `hal` that returned nil: the loop accepted every supplied pair,
and the env values are those the loop leaves. -/
theorem Complete_nil_envs (ui : UI) (client : Client) (o : link.createOptions)
    (hok : (o.Complete ui client).outcome = .returned none) :
    (parseEnvPairs o.EnvOptions.EnvPairs o.EnvOptions.Envs).1 = none ∧
      (o.Complete ui client).state.EnvOptions.Envs =
        (parseEnvPairs o.EnvOptions.EnvPairs o.EnvOptions.Envs).2 := by
  by_cases hboth : (decide (o.secret.length > 0) &&
      decide (o.EnvOptions.EnvPairs.length > 0)) = true
  · simp [link.createOptions.Complete, hboth] at hok
  · have hb : (decide (o.secret.length > 0) &&
        decide (o.EnvOptions.EnvPairs.length > 0)) = false := by simpa using hboth
    have key : ∀ (o2 : link.createOptions) (tr : List Event),
        o.Complete ui client = o2.completeDecision ui client (decide (o.secret.length > 0))
          (decide (o.EnvOptions.EnvPairs.length > 0)) tr →
        o2.EnvOptions = o.EnvOptions →
        (parseEnvPairs o.EnvOptions.EnvPairs o.EnvOptions.Envs).1 = none ∧
          (o.Complete ui client).state.EnvOptions.Envs =
            (parseEnvPairs o.EnvOptions.EnvPairs o.EnvOptions.Envs).2 := by
      intro o2 tr e henv
      rw [e] at hok ⊢
      have := completeDecision_envs ui client (decide (o.secret.length > 0))
        (decide (o.EnvOptions.EnvPairs.length > 0)) o2 tr hb (by rw [henv]) hok
      rw [henv] at this
      exact this
    rcases hT : o.checkAndGetValidTargets client with ⟨⟨cands, valid, err⟩, evs⟩
    cases err with
    | some e => simp [link.createOptions.Complete, hboth, hT] at hok
    | none =>
      by_cases hlen : cands.length = 0
      · simp [link.createOptions.Complete, hboth, hT, hlen] at hok
      · cases valid with
        | true =>
          exact key o (evs ++ [Event.outputSelection (lit "Selected target") o.targetName])
            (by simp [link.createOptions.Complete, hboth, hT, hlen]) rfl
        | false =>
          cases hx : link.createOptions.extractTargetName
              (ui.Select (evs ++ [Event.outputSelection (lit "Selected target") o.targetName])
                (lit "Target") cands) with
          | none => simp [link.createOptions.Complete, hboth, hT, hlen, hx] at hok
          | some n =>
            exact key { o with targetName := n }
              (evs ++ [Event.outputSelection (lit "Selected target") o.targetName,
                Event.select (lit "Target") cands])
              (by simp [link.createOptions.Complete, hboth, hT, hlen, hx]) rfl

/-- With env pairs and no secret name, targets on the cluster and no panic in the
target selection, `Complete` of `hal` returns what the loop returns. -/
theorem Complete_env_reach (ui : UI) (client : Client) (o : link.createOptions)
    (caps comps : List GoString)
    (hcaps : client.capabilities = .ok caps) (hcomps : client.components = .ok comps)
    (hne : caps ≠ [] ∨ comps ≠ [])
    (hs : o.secret = []) (he : o.EnvOptions.EnvPairs ≠ [])
    (hnp : (o.Complete ui client).outcome ≠ .panicked) :
    (o.Complete ui client).outcome =
        .returned (parseEnvPairs o.EnvOptions.EnvPairs o.EnvOptions.Envs).1 ∧
      (o.Complete ui client).state.EnvOptions.Envs =
        (parseEnvPairs o.EnvOptions.EnvPairs o.EnvOptions.Envs).2 := by
  have hlen : (caps.map (fun c => lit "capability" ++ link.targetSeparator ++ c) ++
      comps.map (fun c => lit "component" ++ link.targetSeparator ++ c)).length ≠ 0 := by
    rw [List.length_append, List.length_map, List.length_map]
    rcases hne with h | h
    · have := List.length_pos.mpr h
      omega
    · have := List.length_pos.mpr h
      omega
  have hT := checkAndGetValidTargets_ok client o caps comps hcaps hcomps
  have hue : decide (o.EnvOptions.EnvPairs.length > 0) = true := length_pos_of_ne_nil _ he
  have key : ∀ (o2 : link.createOptions) (tr : List Event),
      o.Complete ui client = o2.completeMechanism ui client false tr →
      o2.EnvOptions = o.EnvOptions →
      (o.Complete ui client).outcome =
          .returned (parseEnvPairs o.EnvOptions.EnvPairs o.EnvOptions.Envs).1 ∧
        (o.Complete ui client).state.EnvOptions.Envs =
          (parseEnvPairs o.EnvOptions.EnvPairs o.EnvOptions.Envs).2 := by
    intro o2 tr e henv
    have := completeMechanism_env ui client o2 tr
    rw [henv] at this
    rw [e]
    exact this
  cases hv : (decide (o.targetName ∈ caps) || decide (o.targetName ∈ comps)) with
  | true =>
    rw [hv] at hT
    exact key o ([Event.listCapabilities, Event.listComponents] ++
        [Event.outputSelection (lit "Selected target") o.targetName])
      (by
        simp only [link.createOptions.Complete, hs, hue, hT, if_neg hlen,
          link.createOptions.completeDecision]
        simp) rfl
  | false =>
    rw [hv] at hT
    cases hx : link.createOptions.extractTargetName
        (ui.Select ([Event.listCapabilities, Event.listComponents] ++
            [Event.outputSelection (lit "Selected target") o.targetName])
          (lit "Target")
          (caps.map (fun c => lit "capability" ++ link.targetSeparator ++ c) ++
            comps.map (fun c => lit "component" ++ link.targetSeparator ++ c))) with
    | none =>
      exfalso
      apply hnp
      simp at hx
      simp only [link.createOptions.Complete, hs, hue, hT, if_neg hlen]
      simp [hx]
    | some n =>
      have hx2 := hx
      simp at hx2
      exact key { o with targetName := n }
        ([Event.listCapabilities, Event.listComponents] ++
          [Event.outputSelection (lit "Selected target") o.targetName] ++
          [Event.select (lit "Target")
            (caps.map (fun c => lit "capability" ++ link.targetSeparator ++ c) ++
              comps.map (fun c => lit "component" ++ link.targetSeparator ++ c))])
        (by
          simp only [link.createOptions.Complete, hs, hue, hT, if_neg hlen,
            link.createOptions.completeDecision]
          simp [hx2]) rfl

/-- C5. Env-pair parsing in the link workflow: a pair is rejected, with the error
`invalid environment variable: <pair>, format must be 'name=value'` that cites
it, if and only if it does not contain exactly one `=`; a pair with exactly one
`=` is accepted as (name = text before the `=`, value = text after it).  The
loop appends the accepted pairs in input order and returns the error of the
first pair that is rejected.  `options.Complete` of `kreate` runs this loop on
`o.envPairs` and `o.envs`: once targets exist and the block on the kind cannot
fail, it returns what the loop returns and stores the env values the loop
leaves, and whenever it returns nil every pair had exactly one `=`.  The same
holds for `createOptions.Complete` of `hal` on `EnvPairs` and `Envs`, when env
pairs and no secret name are supplied. -/
theorem C5_parseEnvPairs :
    (∀ pair : GoString,
      pair.count 61 ≠ 1 ↔
        parseEnvPair pair = .error ⟨lit "invalid environment variable: " ++ pair ++
          lit ", format must be \x27name=value\x27"⟩) ∧
    (∀ pair : GoString, pair.count 61 = 1 →
      ∃ n v : GoString, pair = n ++ 61 :: v ∧ 61 ∉ n ∧ 61 ∉ v ∧
        parseEnvPair pair = .ok ⟨n, v⟩) ∧
    (∀ (pairs : List GoString) (envs : List NameValuePair),
      (∀ p ∈ pairs, p.count 61 = 1) →
      ∃ nvs : List NameValuePair, parseEnvPairs pairs envs = (none, envs ++ nvs) ∧
        List.Forall₂
          (fun p nv => p = nv.Name ++ 61 :: nv.Value ∧ 61 ∉ nv.Name ∧ 61 ∉ nv.Value)
          pairs nvs) ∧
    (∀ (good : List GoString) (bad : GoString) (rest : List GoString)
      (envs : List NameValuePair),
      (∀ p ∈ good, p.count 61 = 1) → bad.count 61 ≠ 1 →
      ∃ nvs : List NameValuePair,
        parseEnvPairs (good ++ bad :: rest) envs =
          (some ⟨lit "invalid environment variable: " ++ bad ++
            lit ", format must be \x27name=value\x27"⟩, envs ++ nvs) ∧
        List.Forall₂
          (fun p nv => p = nv.Name ++ 61 :: nv.Value ∧ 61 ∉ nv.Name ∧ 61 ∉ nv.Value)
          good nvs) ∧
    (∀ (ui : UI) (client : Client) (kind : kreate.EnumValue) (o : kreate.options)
      (caps comps : List GoString),
      client.capabilities = .ok caps → client.components = .ok comps →
      (caps ≠ [] ∨ comps ≠ []) →
      (kind.IsProvidedValid = true ∨
        (kind.Set kreate.LinkKind.EnvLinkKind = none ∧
          ((∀ tr : List Event, ui.Proceed tr (lit "Use Secret") = false) ∨
            (kind.Set kreate.LinkKind.SecretLinkKind = none ∧
              ∃ secrets : List GoString, client.secrets = .ok secrets ∧ secrets ≠ [])))) →
      (o.Complete ui client kind).outcome =
          .returned (parseEnvPairs o.envPairs o.envs).1 ∧
        (o.Complete ui client kind).state.envs = (parseEnvPairs o.envPairs o.envs).2) ∧
    (∀ (ui : UI) (client : Client) (kind : kreate.EnumValue) (o : kreate.options),
      (o.Complete ui client kind).outcome = .returned none →
      (∀ p ∈ o.envPairs, p.count 61 = 1) ∧
        (o.Complete ui client kind).state.envs = (parseEnvPairs o.envPairs o.envs).2) ∧
    (∀ (ui : UI) (client : Client) (o : link.createOptions) (caps comps : List GoString),
      client.capabilities = .ok caps → client.components = .ok comps →
      (caps ≠ [] ∨ comps ≠ []) →
      o.secret = [] → o.EnvOptions.EnvPairs ≠ [] →
      (o.Complete ui client).outcome ≠ .panicked →
      (o.Complete ui client).outcome =
          .returned (parseEnvPairs o.EnvOptions.EnvPairs o.EnvOptions.Envs).1 ∧
        (o.Complete ui client).state.EnvOptions.Envs =
          (parseEnvPairs o.EnvOptions.EnvPairs o.EnvOptions.Envs).2) ∧
    (∀ (ui : UI) (client : Client) (o : link.createOptions),
      (o.Complete ui client).outcome = .returned none →
      (∀ p ∈ o.EnvOptions.EnvPairs, p.count 61 = 1) ∧
        (o.Complete ui client).state.EnvOptions.Envs =
          (parseEnvPairs o.EnvOptions.EnvPairs o.EnvOptions.Envs).2) := by
  refine ⟨fun pair => ⟨parseEnvPair_of_count_ne_one pair, ?_⟩, parseEnvPair_of_count_one,
    parseEnvPairs_all_ok, parseEnvPairs_first_bad, ?_, ?_, ?_, ?_⟩
  · intro he hc
    obtain ⟨n, v, _, _, _, hok⟩ := parseEnvPair_of_count_one pair hc
    rw [hok] at he
    cases he
  · intro ui client kind o caps comps hcaps hcomps hne hkind
    obtain ⟨o2, tr2, e, hp, hv⟩ :=
      kreate_Complete_reach ui client kind o caps comps hcaps hcomps hne hkind
    rw [e]
    simp only [kreate.options.completeEnvs, hp, hv]
    exact ⟨trivial, trivial⟩
  · intro ui client kind o hok
    obtain ⟨o2, tr2, e, hp, hv⟩ := kreate_Complete_nil ui client kind o hok
    rw [e] at hok ⊢
    simp only [kreate.options.completeEnvs, hp, hv] at hok ⊢
    refine ⟨parseEnvPairs_none o.envPairs o.envs ?_, trivial⟩
    injection hok
  · intro ui client o caps comps hcaps hcomps hne hs he hnp
    exact Complete_env_reach ui client o caps comps hcaps hcomps hne hs he hnp
  · intro ui client o hok
    have h := Complete_nil_envs ui client o hok
    exact ⟨parseEnvPairs_none _ _ h.1, h.2⟩

/-- C5 at `FOO` and `FOO=bar=baz` (both rejected, citing the pair), at `FOO=bar`,
and at `--target backend --env A=1 --env FOO` in `kreate` and in `hal`: `Complete`
returns the error citing `FOO`, with `A=1` appended. -/
theorem C5_parseEnvPairs_witness :
    parseEnvPair (lit "FOO") =
        .error ⟨lit "invalid environment variable: FOO, format must be \x27name=value\x27"⟩ ∧
      parseEnvPair (lit "FOO=bar=baz") =
        .error ⟨lit
          "invalid environment variable: FOO=bar=baz, format must be \x27name=value\x27"⟩ ∧
      (∃ n v : GoString, lit "FOO=bar" = n ++ 61 :: v ∧ 61 ∉ n ∧ 61 ∉ v ∧
        parseEnvPair (lit "FOO=bar") = .ok ⟨n, v⟩) ∧
      ((envKreateOptions.Complete exampleUI exampleClient exampleKind).outcome =
          .returned (some ⟨lit
            "invalid environment variable: FOO, format must be \x27name=value\x27"⟩) ∧
        (envKreateOptions.Complete exampleUI exampleClient exampleKind).state.envs =
          [⟨lit "A", lit "1"⟩]) ∧
      ((envOptions.Complete exampleUI exampleClient).outcome =
          .returned (some ⟨lit
            "invalid environment variable: FOO, format must be \x27name=value\x27"⟩) ∧
        (envOptions.Complete exampleUI exampleClient).state.EnvOptions.Envs =
          [⟨lit "A", lit "1"⟩]) :=
  have hk := C5_parseEnvPairs.2.2.2.2.1 exampleUI exampleClient exampleKind envKreateOptions
    [lit "db"] [lit "backend", lit "frontend"] rfl rfl (by decide) (Or.inl rfl)
  have hh := C5_parseEnvPairs.2.2.2.2.2.2.1 exampleUI exampleClient envOptions
    [lit "db"] [lit "backend", lit "frontend"] rfl rfl (by decide) rfl (by decide) (by decide)
  ⟨(C5_parseEnvPairs.1 (lit "FOO")).mp (by decide),
   (C5_parseEnvPairs.1 (lit "FOO=bar=baz")).mp (by decide),
   C5_parseEnvPairs.2.1 (lit "FOO=bar") (by decide),
   ⟨hk.1.trans (by decide), hk.2.trans (by decide)⟩,
   ⟨hh.1.trans (by decide), hh.2.trans (by decide)⟩⟩

end Hal
